import Mathlib

/-!
# vmsToNotion converter: pricing, tag filter and CSV rows

A shallow embedding of `converter.go`.

* Go `string` values are modelled by Lean `String` (the records come out of
  `encoding/json`, which only produces valid UTF-8); every byte test the program
  makes is against an ASCII byte, so testing characters is the same thing.
* A `time.Time` is the wall-clock instant in nanoseconds since
  `0001-01-01T00:00:00` UTC, an unbounded integer.  A `time.Duration` is an
  `int64` count of nanoseconds.
* A `float64` is modelled by the rational it denotes.  Every arithmetic
  operation is the exact operation followed by `float64`, the IEEE-754
  round-to-nearest-even rounding to a 53 bit significand.  All quantities the
  program computes are products of at most `2^63 / 3.6e12` hours and a rate of
  at most `6.0`, or the sentinel `-1`, so overflow, subnormals, NaN and
  infinities never arise and the exponent range is left unbounded.
* The readings of `time.Now()` and the order in which `range` walks a map are
  not determined by the program; they are explicit inputs of the functions that
  depend on them.
-/

namespace Converter

/-! ## float64 -/

/-- Nearest integer to `q`, ties going to the even neighbour. -/
def roundHalfEven (q : ℚ) : ℤ :=
  let f := ⌊q⌋
  let r := q - f
  if r < 1 / 2 then f
  else if 1 / 2 < r then f + 1
  else if f % 2 = 0 then f else f + 1

/-- Rounding of a rational to the nearest binary64 value (53 bit significand,
ties to even).  For `q ≠ 0` with `2^e ≤ |q| < 2^(e+1)` the spacing of the
binary64 grid around `q` is `2^(e-52)`.  The exponent is not bounded, so the
result is the one of the Go operation only when it is zero or of magnitude in
the normal range `2^-1022 ≤ |x| < 2^1024`: there is no overflow to an infinity
and no subnormal spacing.  `hours_times_rate_normal` shows that the product of
the hours of an `int64` duration and a rate of the pricing table is in that
range; statements about `priceSince` are made for such rates only. -/
def float64 (q : ℚ) : ℚ :=
  if q = 0 then 0
  else
    let ulp : ℚ := 2 ^ (Int.log 2 |q| - 52)
    roundHalfEven (q / ulp) * ulp

/-! ## package time -/

/-- Wall-clock instant: nanoseconds since `0001-01-01T00:00:00` UTC. -/
abbrev Time := Int

/-- An `int64` count of nanoseconds. -/
abbrev Duration := Int

/-- The smallest `Duration`, `-1 << 63`. -/
def minDuration : Duration := -2 ^ 63

/-- The largest `Duration`, `1<<63 - 1`. -/
def maxDuration : Duration := 2 ^ 63 - 1

/-- `time.Hour` in nanoseconds. -/
def Hour : Duration := 3600000000000

/-- `func (t Time) Sub(u Time) Duration`: the difference `t - u`, or the
extreme `Duration` when the difference does not fit in an `int64`.  (A parsed
time carries no monotonic reading, so the wall clocks are subtracted.) -/
def Time.Sub (t u : Time) : Duration :=
  let d := t - u
  if minDuration ≤ d ∧ d ≤ maxDuration then d
  else if t < u then minDuration
  else maxDuration

/-- `func (d Duration) Hours() float64`:
`hour := d / Hour; nsec := d % Hour; return float64(hour) + float64(nsec)/(60*60*1e9)`
with Go's truncated integer division. -/
def Duration.Hours (d : Duration) : ℚ :=
  let hour := Int.tdiv d Hour
  let nsec := Int.tmod d Hour
  float64 (float64 hour + float64 (float64 nsec / 3600000000000))

/-- `isLeap` of package time. -/
def isLeap (year : Int) : Bool :=
  year % 4 = 0 && (year % 100 ≠ 0 || year % 400 = 0)

/-- `daysBefore[m]`: days in a non-leap year before month `m + 1`. -/
def daysBefore (m : Nat) : Int :=
  match m with
  | 0 => 0
  | 1 => 31
  | 2 => 59
  | 3 => 90
  | 4 => 120
  | 5 => 151
  | 6 => 181
  | 7 => 212
  | 8 => 243
  | 9 => 273
  | 10 => 304
  | 11 => 334
  | _ => 365

/-- `daysIn(m, year)` of package time, for a month `1 ≤ m ≤ 12`. -/
def daysIn (m : Nat) (year : Int) : Int :=
  if m = 2 ∧ isLeap year then 29
  else daysBefore m - daysBefore (m - 1)

/-- `daysSinceEpoch(year)` of package time, counted from year 1 instead of the
library's internal year zero (the two differ by a whole number of 400-year
cycles): the days from `0001-01-01` to January 1st of `year`. -/
def daysSinceEpoch (year : Int) : Int :=
  let y := year - 1
  let n400 := y / 400
  let y := y - 400 * n400
  let d := 146097 * n400
  let n100 := y / 100
  let y := y - 100 * n100
  let d := d + 36524 * n100
  let n4 := y / 4
  let y := y - 4 * n4
  let d := d + 1461 * n4
  d + 365 * y

/-- `norm(hi, lo, base)` of package time. -/
def norm (hi lo base : Int) : Int × Int :=
  (hi + lo / base, lo % base)

/-- `time.Date(year, month, day, hour, min, sec, nsec, time.UTC)`. -/
def Date (year month day hour min sec nsec : Int) : Time :=
  let (year, m) := norm year (month - 1) 12
  let (sec, nsec) := norm sec nsec 1000000000
  let (min, sec) := norm min sec 60
  let (hour, min) := norm hour min 60
  let (day, hour) := norm day hour 24
  let d := daysSinceEpoch year + daysBefore m.toNat
  let d := if isLeap year ∧ 2 ≤ m then d + 1 else d
  let d := d + (day - 1)
  let abs := d * 86400 + (hour * 3600 + min * 60 + sec)
  abs * 1000000000 + nsec

/-- `isDigit`: the byte is an ASCII decimal digit. -/
def isDigit (c : Char) : Bool :=
  48 ≤ c.toNat && c.toNat ≤ 57

/-- Value of an ASCII digit, `c - '0'`. -/
def digitVal (c : Char) : Nat :=
  c.toNat - 48

/-- `getnum(s, fixed)`: a one or two digit number (exactly two when `fixed`),
with the rest of the input. -/
def getnum (s : List Char) (fixed : Bool) : Option (Nat × List Char) :=
  match s with
  | [] => none
  | c0 :: rest =>
    if !isDigit c0 then none
    else
      match rest with
      | [] => if fixed then none else some (digitVal c0, rest)
      | c1 :: rest1 =>
        if !isDigit c1 then
          if fixed then none else some (digitVal c0, rest)
        else some (digitVal c0 * 10 + digitVal c1, rest1)

/-- `atoi` on a string of decimal digits (no sign). -/
def atoiDigits (s : List Char) : Option Nat :=
  if s.all isDigit ∧ s ≠ [] then some (s.foldl (fun x c => x * 10 + digitVal c) 0)
  else none

/-- `skip(value, prefix)` for a one-byte prefix other than a space. -/
def skip (value : List Char) (c : Char) : Option (List Char) :=
  match value with
  | [] => none
  | v :: rest => if v = c then some rest else none

/-- `commaOrPeriod` of package time. -/
def commaOrPeriod (c : Char) : Bool :=
  c = '.' || c = ','

/-- The fractional second the parser accepts right after the seconds field
although the layout has none: `value` starts with `.` or `,` and a digit; the
digits are read greedily and the first nine of them give the nanoseconds
(`parseNanoseconds`).  Returns the nanoseconds and the rest of the input. -/
def parseFraction (value : List Char) : Nat × List Char :=
  match value with
  | c :: d :: rest =>
    if commaOrPeriod c && isDigit d then
      let digits := (d :: rest).takeWhile isDigit
      let kept := digits.take 9
      let ns := kept.foldl (fun x c => x * 10 + digitVal c) 0
      (ns * 10 ^ (9 - kept.length), (d :: rest).dropWhile isDigit)
    else (0, value)
  | _ => (0, value)

/-- The `stdLongYear` chunk of the layout: four bytes, all digits. -/
def parseYear (value : List Char) : Option (Nat × List Char) :=
  if value.length < 4 then none
  else
    match atoiDigits (value.take 4) with
    | none => none
    | some year => some (year, value.drop 4)

/-- A literal byte of the layout followed by a numeric chunk: `skip` and then
`getnum`. -/
def parseField (value : List Char) (c : Char) (fixed : Bool) : Option (Nat × List Char) :=
  match skip value c with
  | none => none
  | some rest => getnum rest fixed

/-- `time.Parse("2006-01-02T15:04:05", value)`: the layout is a four digit
year, `-`, a two digit month, `-`, a two digit day, `T`, a one or two digit
hour, `:`, a two digit minute, `:`, a two digit second, an optional fractional
second, and nothing after it.  The time is in UTC, the layout naming no zone.
`none` stands for a non-nil error. -/
def timeParse (value : String) : Option Time :=
  match parseYear value.data with
  | none => none
  | some (year, v) =>
    match parseField v '-' true with
    | none => none
    | some (month, v) =>
      if month = 0 ∨ 12 < month then none
      else
        -- the day is validated once the whole value is parsed
        match parseField v '-' true with
        | none => none
        | some (day, v) =>
          match parseField v 'T' false with
          | none => none
          | some (hour, v) =>
            if 24 ≤ hour then none
            else
              match parseField v ':' true with
              | none => none
              | some (min, v) =>
                if 60 ≤ min then none
                else
                  match parseField v ':' true with
                  | none => none
                  | some (sec, v) =>
                    if 60 ≤ sec then none
                    else
                      match parseFraction v with
                      | (nsec, v) =>
                        -- end of the layout: no extra text
                        if v ≠ [] then none
                        else if (day : Int) < 1 ∨ daysIn month year < day then none
                        else some (Date year month day hour min sec nsec)

/-- `absDate(abs, true)` of package time: the civil year, month (1..12) and day
of the month of the day that lies `days` days after `0001-01-01`. -/
def absDate (days : Int) : Int × Int × Int :=
  -- 400-year cycles
  let n := days / 146097
  let y := 400 * n
  let d := days - 146097 * n
  -- 100-year cycles
  let n := d / 36524
  let n := n - n / 4
  let y := y + 100 * n
  let d := d - 36524 * n
  -- 4-year cycles
  let n := d / 1461
  let y := y + 4 * n
  let d := d - 1461 * n
  -- years within a 4-year cycle
  let n := d / 365
  let n := n - n / 4
  let y := y + n
  let d := d - 365 * n
  let year := y + 1
  let yday := d
  if isLeap year ∧ yday = 31 + 29 - 1 then (year, 2, 29)
  else
    let day := if isLeap year ∧ yday > 31 + 29 - 1 then yday - 1 else yday
    let month := day / 31
    let finish := daysBefore (month + 1).toNat
    if day ≥ finish then (year, month + 2, day - finish + 1)
    else (year, month + 1, day - daysBefore month.toNat + 1)

/-- `func (t Time) Date()` reduced to `(year, month)`, for a time whose location
has the offset `offset` seconds east of UTC at that instant. -/
def Time.Date (t : Time) (offset : Int) : Int × Int :=
  let sec := t / 1000000000 + offset
  let (year, month, _) := absDate (sec / 86400)
  (year, month)

/-- The civil fields of a UTC time that `Format` prints: the date by `absDate`
and hour, minute, second by `absClock`. -/
def Time.civil (t : Time) : Int × Int × Int × Int × Int × Int :=
  let abs := t / 1000000000
  let (year, month, day) := absDate (abs / 86400)
  let sec := abs % 86400
  let hour := sec / 3600
  let sec := sec - hour * 3600
  let min := sec / 60
  let sec := sec - min * 60
  (year, month, day, hour, min, sec)

/-- Decimal digits of `n`, most significant first (`fuel` bounds the number of
digits produced). -/
def decimalDigits (fuel n : Nat) : List Char :=
  match fuel with
  | 0 => []
  | fuel + 1 =>
    if n < 10 then [Char.ofNat (48 + n)]
    else decimalDigits fuel (n / 10) ++ [Char.ofNat (48 + n % 10)]

/-- Decimal representation of a natural number. -/
def formatNat (n : Nat) : List Char :=
  decimalDigits (n + 1) n

/-- `appendInt(b, x, width)` of package time: decimal, zero padded on the left
to `width` digits, with a leading `-` for a negative number. -/
def appendInt (x : Int) (width : Nat) : List Char :=
  let ds := formatNat x.natAbs
  let padded := List.replicate (width - ds.length) '0' ++ ds
  if x < 0 then '-' :: padded else padded

/-- `func (t Time) Format("2006-01-02T15:04:05")` for a UTC time. -/
def Time.Format (t : Time) : String :=
  let (year, month, day, hour, min, sec) := Time.civil t
  String.mk (appendInt year 4 ++ '-' :: appendInt month 2 ++ '-' :: appendInt day 2
    ++ 'T' :: appendInt hour 2 ++ ':' :: appendInt min 2 ++ ':' :: appendInt sec 2)

/-! ## converter.go -/

/-- The float64 constant a decimal literal of the pricing table denotes. -/
def instancePricingTable : List (String × ℚ) :=
  [("g6-nanode-1", float64 0.0075),
   ("g6-standard-1", float64 0.015),
   ("g6-standard-2", float64 0.03),
   ("g6-standard-4", float64 0.06),
   ("g6-standard-6", float64 0.12),
   ("g6-standard-8", float64 0.24),
   ("g6-standard-16", float64 0.48),
   ("g6-standard-20", float64 0.72),
   ("g6-standard-24", float64 0.96),
   ("g6-standard-32", float64 1.44),
   ("g7-highmem-1", float64 0.09),
   ("g7-highmem-2", float64 0.18),
   ("g7-highmem-4", float64 0.36),
   ("g7-highmem-8", float64 0.72),
   ("g7-highmem-16", float64 1.44),
   ("g6-dedicated-2", float64 0.045),
   ("g6-dedicated-4", float64 0.09),
   ("g6-dedicated-8", float64 0.18),
   ("g6-dedicated-16", float64 0.36),
   ("g6-dedicated-32", float64 0.72),
   ("g6-dedicated-48", float64 1.08),
   ("g6-dedicated-50", float64 1.44),
   ("g6-dedicated-56", float64 2.88),
   ("g6-dedicated-64", float64 5.76),
   ("g1-gpu-rtx6000-1", float64 1.5),
   ("g1-gpu-rtx6000-2", float64 3.0),
   ("g1-gpu-rtx6000-3", float64 4.5),
   ("g1-gpu-rtx6000-4", float64 6.0)]

/-- Lookup in an association list with distinct keys. -/
def lookupKey (key : String) : List (String × ℚ) → Option ℚ
  | [] => none
  | (k, v) :: rest => if key = k then some v else lookupKey key rest

/-- `instancePricing[key]` with the comma-ok result: `none` when the key is
absent. -/
def instancePricing (key : String) : Option ℚ :=
  lookupKey key instancePricingTable

/-- `type FinalData struct`; the field `Type` is written `Type_`, and the two
prices are float64 values. -/
structure FinalData where
  Label : String
  Created : String
  Type_ : String
  IPv4 : List String
  Region : String
  Tag : String
  FullTags : String
  PriceSinceCreation : ℚ
  PriceThisMonth : ℚ
  Disk : Int
  Memory : Int
  Vcpus : Int
  Gpus : Int
  Transfer : Int
deriving DecidableEq

/-- `type Specs struct`. -/
structure Specs where
  Disk : Int
  Memory : Int
  Vcpus : Int
  Gpus : Int
  Transfer : Int
deriving DecidableEq

/-- `type Alerts struct`; the field `IO` is written `IO_`. -/
structure Alerts where
  CPU : Int
  NetworkIn : Int
  NetworkOut : Int
  TransferQuota : Int
  IO_ : Int
deriving DecidableEq

/-- `type Schedule struct`; a nil `*string` is `none`. -/
structure Schedule where
  Day : Option String
  Window : Option String
deriving DecidableEq

/-- `type Backups struct`. -/
structure Backups where
  Enabled : Bool
  Available : Bool
  Schedule : Schedule
  LastSuccessful : Option String
deriving DecidableEq

/-- `type Data struct`, one instance record of the input; the field `Type` is
written `Type_`. -/
structure Data where
  ID : Int
  Label : String
  Group : String
  Status : String
  Created : String
  Updated : String
  Type_ : String
  IPv4 : List String
  IPv6 : String
  Image : String
  Region : String
  Specs : Specs
  Alerts : Alerts
  Backups : Backups
  Hypervisor : String
  WatchdogEnabled : Bool
  Tags : List String
  HostUUID : String
deriving DecidableEq

/-- `strings.Join(elems, sep)`. -/
def Join (elems : List String) (sep : String) : String :=
  match elems with
  | [] => ""
  | [e] => e
  | e :: rest => rest.foldl (fun b s => b ++ sep ++ s) e

/-- `func containsTag(tags []string, target string) bool`. -/
def containsTag (tags : List String) (target : String) : Bool :=
  match tags with
  | [] => false
  | tag :: rest => if tag = target then true else containsTag rest target

/-- `func priceSince(dateStr string, price float64) (float64, error)`; `now` is
the reading of `time.Now()`, `none` a non-nil error. -/
def priceSince (now : Time) (dateStr : String) (price : ℚ) : Option ℚ :=
  match timeParse dateStr with
  | none => none
  | some date =>
    let duration := Time.Sub now date
    let days := Duration.Hours duration
    some (float64 (days * price))

/-- The package variable `beginningOfMonth`, initialised from the reading
`now` of `time.Now()` at start-up, in a local zone `offset` seconds east of
UTC: `year, month, _ := now.Date()` and then
`time.Date(year, month, 1, 0, 0, 0, 0, time.UTC).Format("2006-01-02T15:04:05")`. -/
def beginningOfMonth (now : Time) (offset : Int) : String :=
  let (year, month) := Time.Date now offset
  Time.Format (Date year month 1 0 0 0 0)

/-- `func (d Data) getPriceSinceMonthStarted() float64`; `bom` is the value of
the package variable `beginningOfMonth`. -/
def Data.getPriceSinceMonthStarted (d : Data) (bom : String) (now : Time) : ℚ :=
  match instancePricing d.Type_ with
  | none => -1
  | some instancePrice =>
    match priceSince now bom instancePrice with
    | none => -1
    | some val => val

/-- `func (d Data) getPrice() float64`. -/
def Data.getPrice (d : Data) (now : Time) : ℚ :=
  match instancePricing d.Type_ with
  | none => -1
  | some instancePrice =>
    match priceSince now d.Created instancePrice with
    | none => -1
    | some val => val

/-- `func (d Data) ToFinalData() FinalData`; `now1` and `now2` are the readings
of `time.Now()` made by `getPrice` and by `getPriceSinceMonthStarted`.  The
`Tag` field is left at its zero value. -/
def Data.ToFinalData (d : Data) (bom : String) (now1 now2 : Time) : FinalData :=
  let price := d.getPrice now1
  let priceThisMonth := d.getPriceSinceMonthStarted bom now2
  let priceThisMonth := if priceThisMonth > price then price else priceThisMonth
  { Label := d.Label
    Created := d.Created
    Type_ := d.Type_
    IPv4 := d.IPv4
    Region := d.Region
    Tag := ""
    FullTags := Join d.Tags ","
    PriceSinceCreation := price
    PriceThisMonth := priceThisMonth
    Disk := d.Specs.Disk
    Vcpus := d.Specs.Vcpus
    Gpus := d.Specs.Gpus
    Transfer := d.Specs.Transfer
    Memory := d.Specs.Memory }

/-- What one run of `main` fixes from outside the program, per index `i` of the
entry being processed: the order in which `for key := range searchTags` yields
the keys of the map, and the two readings of `time.Now()` that `ToFinalData`
makes. -/
structure Run where
  order : Nat → List String
  now1 : Nat → Time
  now2 : Nat → Time

/-- The inner loop of `main`, `for key := range searchTags { ... break }`, for
one entry; `keys` is the order in which the map yields its keys. -/
def rangeSearchTags (bom : String) (now1 now2 : Time) (entry : Data)
    (keys : List String) (finalData : List FinalData) : List FinalData :=
  match keys with
  | [] => finalData
  | key :: rest =>
    if containsTag entry.Tags key then
      let entryAsFinalData := entry.ToFinalData bom now1 now2
      let entryAsFinalData := { entryAsFinalData with Tag := key }
      finalData ++ [entryAsFinalData]
    else rangeSearchTags bom now1 now2 entry rest finalData

/-- The outer loop of `main`, `for _, entry := range resp.Data`, from the entry
of index `i` on. -/
def rangeData (bom : String) (run : Run) (i : Nat) (entries : List Data)
    (finalData : List FinalData) : List FinalData :=
  match entries with
  | [] => finalData
  | entry :: rest =>
    rangeData bom run (i + 1) rest
      (rangeSearchTags bom (run.now1 i) (run.now2 i) entry (run.order i) finalData)

/-- The slice `finalData` that `main` hands to `saveToCSV`. -/
def mainFinalData (bom : String) (run : Run) (data : List Data) : List FinalData :=
  rangeData bom run 0 data []

/-- `strconv.Itoa(i)`. -/
def Itoa (i : Int) : String :=
  if i < 0 then String.mk ('-' :: formatNat i.natAbs) else String.mk (formatNat i.natAbs)

/-- `strconv.FormatFloat(x, 'f', 2, 64)` for a finite `x`: the exact value
rounded to two decimals (ties to even), a `-` for a negative number. -/
def FormatFloat (x : ℚ) : String :=
  let n := (roundHalfEven (|x| * 100)).natAbs
  let digits := formatNat (n / 100) ++
    ['.', Char.ofNat (48 + n / 10 % 10), Char.ofNat (48 + n % 10)]
  if x < 0 then String.mk ('-' :: digits) else String.mk digits

/-- The header row of `saveToCSV`. -/
def csvHeader : List String :=
  ["Label", "Tag", "FullTags", "PriceSinceCreation(hours)", "PriceThisMonth", "Created",
   "Type", "IPv4", "Region", "Disk", "Memory", "Vcpus", "Gpus", "Transfer"]

/-- The body of the loop of `saveToCSV`: the `line` written for one record. -/
def csvLine (d : FinalData) : List String :=
  let ipv4 := if d.IPv4.length > 0 then Join d.IPv4 "," else ""
  [d.Label, d.Tag, d.FullTags, FormatFloat d.PriceSinceCreation, FormatFloat d.PriceThisMonth,
   d.Created, d.Type_, ipv4, d.Region,
   Itoa d.Disk, Itoa d.Memory, Itoa d.Vcpus, Itoa d.Gpus, Itoa d.Transfer]

/-- `func saveToCSV(data []FinalData, output string) error`: the rows passed to
`writer.Write`, in order, and the error returned.  `createErr` is the error of
`os.Create(output)`. -/
def saveToCSV (createErr : Option String) (data : List FinalData) :
    List (List String) × Option String :=
  match createErr with
  | some err => ([], some err)
  | none =>
    let written := [csvHeader]
    let written := data.foldl (fun w d => w ++ [csvLine d]) written
    (written, none)

/-- The fields of `s` between the occurrences of the byte `sep`. -/
def splitChars (sep : Char) : List Char → List (List Char)
  | [] => [[]]
  | c :: cs =>
    if c = sep then [] :: splitChars sep cs
    else
      match splitChars sep cs with
      | [] => [[c]]
      | field :: fields => (c :: field) :: fields

/-- `strings.Split(s, sep)` for a one-byte separator. -/
def Split (s : String) (sep : Char) : List String :=
  (splitChars sep s.data).map String.mk

/-! ## Definitions used in the statements -/

/-- A record used in the examples. -/
def exampleData : Data :=
  { ID := 1, Label := "vm", Group := "", Status := "running",
    Created := "2024-01-01T00:00:00", Updated := "2024-01-01T00:00:00",
    Type_ := "g6-standard-1", IPv4 := ["192.0.2.1"], IPv6 := "", Image := "",
    Region := "eu-central",
    Specs := { Disk := 25600, Memory := 1024, Vcpus := 1, Gpus := 0, Transfer := 1000 },
    Alerts := { CPU := 90, NetworkIn := 10, NetworkOut := 10, TransferQuota := 80, IO_ := 10000 },
    Backups := { Enabled := false, Available := false,
                 Schedule := { Day := none, Window := none }, LastSuccessful := none },
    Hypervisor := "kvm", WatchdogEnabled := true, Tags := ["core"], HostUUID := "" }

/-- The record the loop of `main` appends for `entry` when `key` is the key at
which the inner loop stops. -/
def emitted (bom : String) (now1 now2 : Time) (entry : Data) (key : String) : FinalData :=
  { entry.ToFinalData bom now1 now2 with Tag := key }

/-- `key` is the first element of `order` that occurs in `tags`. -/
def IsFirstMatch (order tags : List String) (key : String) : Prop :=
  ∃ pre post, order = pre ++ key :: post ∧ (∀ k ∈ pre, k ∉ tags) ∧ key ∈ tags

/-- Target tags used in the examples. -/
def exampleKeys : List String := ["core", "gnosis"]

/-- A run in which the map yields its keys in alternating orders. -/
def exampleRun : Run :=
  { order := fun i => if i % 2 = 0 then ["gnosis", "core"] else ["core", "gnosis"]
    now1 := fun _ => 63839750400000000000
    now2 := fun i => 63839750400000000000 + i }

/-- Three entries: one with both target tags, one with none, one with one. -/
def exampleEntries : List Data :=
  [{ exampleData with Tags := ["core", "gnosis"] },
   { exampleData with Tags := ["other"] },
   { exampleData with Tags := ["x", "core"] }]

/-- The number a list of ASCII digits denotes in base ten. -/
def readDecimal (s : List Char) : Nat :=
  s.foldl (fun x c => x * 10 + digitVal c) 0

/-- Plain decimal digits: one or more ASCII digits, the first of which is `0`
only in the numeral `0` itself. -/
def isPlainDigits (s : List Char) : Bool :=
  !s.isEmpty && s.all isDigit && (s.head? != some '0' || s == ['0'])

/-- The integer a plain decimal numeral denotes: plain decimal digits, with a
leading `-` for a negative integer and nothing else; `-0`, a `+` sign, leading
zeros, blanks and any other character are rejected. -/
def plainDecimal (s : String) : Option Int :=
  match s.data with
  | '-' :: digits =>
    if isPlainDigits digits && digits != ['0'] then some (-(readDecimal digits : Int)) else none
  | digits => if isPlainDigits digits then some (readDecimal digits : Int) else none

/-- The number a decimal numeral with exactly two decimals denotes: an optional
leading `-`, plain decimal digits, a `.` and two digits; anything else is
rejected. -/
def twoDecimals (s : String) : Option ℚ :=
  let negative := s.data.head? == some '-'
  let body := if negative then s.data.tail else s.data
  match body.reverse with
  | d2 :: d1 :: '.' :: whole =>
    if isPlainDigits whole.reverse && isDigit d1 && isDigit d2 then
      let v : ℚ := (readDecimal (whole.reverse ++ [d1, d2]) : ℚ) / 100
      some (if negative then -v else v)
    else none
  | _ => none

/-! ## float64 rounding -/

theorem roundHalfEven_cases (q : ℚ) : roundHalfEven q = ⌊q⌋ ∨ roundHalfEven q = ⌊q⌋ + 1 := by
  unfold roundHalfEven
  simp only
  split
  · exact Or.inl rfl
  · split
    · exact Or.inr rfl
    · split
      · exact Or.inl rfl
      · exact Or.inr rfl

theorem roundHalfEven_nonneg (q : ℚ) (h : 0 ≤ q) : 0 ≤ roundHalfEven q := by
  have hf : 0 ≤ ⌊q⌋ := Int.floor_nonneg.mpr h
  rcases roundHalfEven_cases q with h1 | h1 <;> omega

/-- A rational strictly within one half of an integer rounds to that integer. -/
theorem roundHalfEven_of_near (q : ℚ) (m : ℤ) (h : |q - m| < 1 / 2) : roundHalfEven q = m := by
  have h1 := (abs_lt.mp h).1
  have h2 := (abs_lt.mp h).2
  by_cases hm : (m : ℚ) ≤ q
  · have hfloor : ⌊q⌋ = m := by
      rw [Int.floor_eq_iff]
      constructor
      · exact hm
      · linarith
    unfold roundHalfEven
    simp only [hfloor]
    rw [if_pos (by linarith)]
  · have hfloor : ⌊q⌋ = m - 1 := by
      rw [Int.floor_eq_iff]
      push_cast
      constructor
      · linarith
      · push_neg at hm
        linarith
    unfold roundHalfEven
    simp only [hfloor]
    push_cast
    rw [if_neg (by linarith), if_pos (by linarith)]
    ring

theorem roundHalfEven_intCast (m : ℤ) : roundHalfEven (m : ℚ) = m :=
  roundHalfEven_of_near _ m (by simp)

theorem float64_zero : float64 0 = 0 := by
  simp [float64]

theorem float64_nonneg (q : ℚ) (h : 0 ≤ q) : 0 ≤ float64 q := by
  unfold float64
  split
  · exact le_refl _
  · simp only
    have hulp : (0 : ℚ) < 2 ^ (Int.log 2 |q| - 52) := zpow_pos (by norm_num) _
    have hr : 0 ≤ roundHalfEven (q / 2 ^ (Int.log 2 |q| - 52)) :=
      roundHalfEven_nonneg _ (div_nonneg h hulp.le)
    have hr2 : (0 : ℚ) ≤ (roundHalfEven (q / 2 ^ (Int.log 2 |q| - 52)) : ℚ) := by
      exact_mod_cast hr
    exact mul_nonneg hr2 hulp.le

theorem log_two_eq (r : ℚ) (e : ℤ) (hr : 0 < r) (h1 : (2 : ℚ) ^ e ≤ r)
    (h2 : r < (2 : ℚ) ^ (e + 1)) : Int.log 2 r = e := by
  have hb : 1 < 2 := by norm_num
  have ha : e ≤ Int.log 2 r := by
    rw [← Int.zpow_le_iff_le_log hb hr]
    simpa using h1
  have hc : Int.log 2 r < e + 1 := by
    rw [← Int.lt_zpow_iff_log_lt hb hr]
    simpa using h2
  omega

/-- Evaluation of `float64` from a certificate: when `2^e ≤ |q| < 2^(e+1)` and
`q / 2^(e-52)` is strictly within one half of the integer `m`, the rounding of
`q` is `m * 2^(e-52)`. -/
theorem float64_eq_of_near (q : ℚ) (e m : ℤ) (h1 : (2 : ℚ) ^ e ≤ |q|)
    (h2 : |q| < (2 : ℚ) ^ (e + 1)) (hm : |q / 2 ^ (e - 52) - m| < 1 / 2) :
    float64 q = m * 2 ^ (e - 52) := by
  have hpos : 0 < |q| := lt_of_lt_of_le (zpow_pos (by norm_num) _) h1
  have hq : q ≠ 0 := abs_pos.mp hpos
  have hlog : Int.log 2 |q| = e := log_two_eq |q| e hpos h1 h2
  unfold float64
  rw [if_neg hq]
  simp only [hlog]
  rw [roundHalfEven_of_near _ m hm]

/-- A non-zero rational keeps its sign under rounding: the rounded significand
has magnitude at least `2^52`. -/
theorem float64_pos (q : ℚ) (h : 0 < q) : 0 < float64 q := by
  have hq : q ≠ 0 := ne_of_gt h
  have habs : |q| = q := abs_of_pos h
  have hulp : (0 : ℚ) < 2 ^ (Int.log 2 |q| - 52) := zpow_pos (by norm_num) _
  have hlow : (2 : ℚ) ^ (Int.log 2 |q|) ≤ q := by
    have := Int.zpow_log_le_self (b := 2) (r := |q|) (by norm_num) (by rw [habs]; exact h)
    rw [habs] at this ⊢
    simpa using this
  have hsplit : (2 : ℚ) ^ (Int.log 2 |q|) = 2 ^ (52 : ℤ) * 2 ^ (Int.log 2 |q| - 52) := by
    rw [← zpow_add₀ (by norm_num : (2 : ℚ) ≠ 0)]
    congr 1
    ring
  have hquot : (1 : ℚ) ≤ q / 2 ^ (Int.log 2 |q| - 52) := by
    rw [le_div_iff₀ hulp]
    have h52 : (1 : ℚ) ≤ 2 ^ (52 : ℤ) := by norm_num
    calc 1 * 2 ^ (Int.log 2 |q| - 52)
        ≤ 2 ^ (52 : ℤ) * 2 ^ (Int.log 2 |q| - 52) :=
          mul_le_mul_of_nonneg_right h52 hulp.le
      _ = 2 ^ (Int.log 2 |q|) := hsplit.symm
      _ ≤ q := hlow
  have hfloor : 1 ≤ ⌊q / 2 ^ (Int.log 2 |q| - 52)⌋ := Int.le_floor.mpr (by exact_mod_cast hquot)
  have hround : 1 ≤ roundHalfEven (q / 2 ^ (Int.log 2 |q| - 52)) := by
    rcases roundHalfEven_cases (q / 2 ^ (Int.log 2 |q| - 52)) with h1 | h1 <;> omega
  have hround2 : (0 : ℚ) < (roundHalfEven (q / 2 ^ (Int.log 2 |q| - 52)) : ℚ) := by
    exact_mod_cast hround
  unfold float64
  rw [if_neg hq]
  exact mul_pos hround2 hulp

theorem roundHalfEven_neg (q : ℚ) : roundHalfEven (-q) = -roundHalfEven q := by
  by_cases hint : (⌊q⌋ : ℚ) = q
  · have h1 : roundHalfEven q = ⌊q⌋ := by
      rw [← hint]
      simp [roundHalfEven_intCast]
    have h2 : roundHalfEven (-q) = -⌊q⌋ := by
      have : -q = ((-⌊q⌋ : ℤ) : ℚ) := by push_cast; rw [hint]
      rw [this, roundHalfEven_intCast]
    rw [h1, h2]
  · have hlt : (⌊q⌋ : ℚ) < q := lt_of_le_of_ne (Int.floor_le q) hint
    have hlt2 : q < ⌊q⌋ + 1 := Int.lt_floor_add_one q
    have hfn : ⌊-q⌋ = -⌊q⌋ - 1 := by
      rw [Int.floor_eq_iff]
      push_cast
      constructor <;> linarith
    unfold roundHalfEven
    simp only [hfn]
    push_cast
    by_cases ha : q - ⌊q⌋ < 1 / 2
    · rw [if_pos ha, if_neg (by linarith), if_pos (by linarith)]
      ring
    · by_cases hb : 1 / 2 < q - ⌊q⌋
      · rw [if_neg ha, if_pos hb, if_pos (by linarith)]
        ring
      · have heq : q - ⌊q⌋ = 1 / 2 := le_antisymm (not_lt.mp hb) (not_lt.mp ha)
        rw [if_neg ha, if_neg hb, if_neg (by linarith), if_neg (by linarith)]
        by_cases hev : ⌊q⌋ % 2 = 0
        · rw [if_pos hev, if_neg (by omega)]
          ring
        · rw [if_neg hev, if_pos (by omega)]
          ring

theorem float64_neg (q : ℚ) : float64 (-q) = -float64 q := by
  unfold float64
  by_cases hq : q = 0
  · simp [hq]
  · have hq2 : -q ≠ 0 := neg_ne_zero.mpr hq
    rw [if_neg hq, if_neg hq2]
    simp only [abs_neg, neg_div, roundHalfEven_neg]
    push_cast
    ring

theorem float64_neg_of_neg (q : ℚ) (h : q < 0) : float64 q < 0 := by
  have h1 : 0 < float64 (-q) := float64_pos (-q) (by linarith)
  rw [float64_neg] at h1
  linarith

/-- Certificate for a positive argument, with the bounds spelled out. -/
theorem float64_cert (q v : ℚ) (e m : ℤ) (h1 : (2 : ℚ) ^ e ≤ q) (h2 : q < (2 : ℚ) ^ (e + 1))
    (hlo : (m : ℚ) - 1 / 2 < q / 2 ^ (e - 52)) (hhi : q / 2 ^ (e - 52) < (m : ℚ) + 1 / 2)
    (hv : (m : ℚ) * 2 ^ (e - 52) = v) : float64 q = v := by
  have hpos : 0 < q := lt_of_lt_of_le (zpow_pos (by norm_num) _) h1
  have habs : |q| = q := abs_of_pos hpos
  rw [← hv]
  apply float64_eq_of_near q e m
  · rw [habs]; exact h1
  · rw [habs]; exact h2
  · rw [abs_lt]
    constructor <;> linarith

theorem float64_rate : float64 0.015 = 1080863910568919 / 72057594037927936 := by
  apply float64_cert 0.015 _ (-7) 8646911284551352 <;> norm_num

theorem float64_24 : float64 24 = 24 := by
  apply float64_cert 24 _ 4 6755399441055744 <;> norm_num

theorem float64_24_rate :
    float64 (24 * (1080863910568919 / 72057594037927936))
      = 3242591731706757 / 9007199254740992 := by
  apply float64_cert _ _ (-2) 6485183463413514 <;> norm_num

theorem float64_036 : float64 0.36 = 3242591731706757 / 9007199254740992 := by
  apply float64_cert _ _ (-2) 6485183463413514 <;> norm_num

/-! ## Hours, rates and signs -/

theorem float64_nonpos (q : ℚ) (h : q ≤ 0) : float64 q ≤ 0 := by
  have h1 : 0 ≤ float64 (-q) := float64_nonneg (-q) (by linarith)
  rw [float64_neg] at h1
  linarith

theorem Hours_neg (d : Duration) : Duration.Hours (-d) = -Duration.Hours d := by
  have htdiv : Int.tdiv (-d) Hour = -Int.tdiv d Hour := Int.neg_tdiv d Hour
  have htmod : Int.tmod (-d) Hour = -Int.tmod d Hour := by
    rw [Int.tmod_def, Int.tmod_def, htdiv]
    ring
  unfold Duration.Hours
  simp only [htdiv, htmod]
  rw [Int.cast_neg, Int.cast_neg, float64_neg, float64_neg, neg_div, float64_neg, ← neg_add,
    float64_neg]

theorem Hours_nonneg (d : Duration) (h : 0 ≤ d) : 0 ≤ Duration.Hours d := by
  have hH : (0 : Int) ≤ Hour := by decide
  have h1 : 0 ≤ Int.tdiv d Hour := Int.tdiv_nonneg h hH
  have h2 : 0 ≤ Int.tmod d Hour := Int.tmod_nonneg Hour h
  have h1q : (0 : ℚ) ≤ (Int.tdiv d Hour : ℚ) := by exact_mod_cast h1
  have h2q : (0 : ℚ) ≤ (Int.tmod d Hour : ℚ) := by exact_mod_cast h2
  unfold Duration.Hours
  apply float64_nonneg
  apply add_nonneg
  · exact float64_nonneg _ h1q
  · apply float64_nonneg
    exact div_nonneg (float64_nonneg _ h2q) (by norm_num)

theorem Hours_pos (d : Duration) (h : 0 < d) : 0 < Duration.Hours d := by
  have hH : (0 : Int) ≤ Hour := by decide
  have h1 : 0 ≤ Int.tdiv d Hour := Int.tdiv_nonneg h.le hH
  have h2 : 0 ≤ Int.tmod d Hour := Int.tmod_nonneg Hour h.le
  have h1q : (0 : ℚ) ≤ (Int.tdiv d Hour : ℚ) := by exact_mod_cast h1
  have h2q : (0 : ℚ) ≤ (Int.tmod d Hour : ℚ) := by exact_mod_cast h2
  have hsum : Hour * Int.tdiv d Hour + Int.tmod d Hour = d := Int.tdiv_add_tmod d Hour
  have ha : 0 ≤ float64 (Int.tdiv d Hour : ℚ) := float64_nonneg _ h1q
  have hb : 0 ≤ float64 (float64 (Int.tmod d Hour : ℚ) / 3600000000000) :=
    float64_nonneg _ (div_nonneg (float64_nonneg _ h2q) (by norm_num))
  unfold Duration.Hours
  apply float64_pos
  by_cases hz : Int.tdiv d Hour = 0
  · have hmod : 0 < Int.tmod d Hour := by
      rw [hz, Int.mul_zero, Int.zero_add] at hsum
      rw [hsum]
      exact h
    have hmodq : (0 : ℚ) < (Int.tmod d Hour : ℚ) := by exact_mod_cast hmod
    have : 0 < float64 (float64 (Int.tmod d Hour : ℚ) / 3600000000000) :=
      float64_pos _ (div_pos (float64_pos _ hmodq) (by norm_num))
    linarith
  · have hpos : 0 < Int.tdiv d Hour := lt_of_le_of_ne h1 (Ne.symm hz)
    have hposq : (0 : ℚ) < (Int.tdiv d Hour : ℚ) := by exact_mod_cast hpos
    have : 0 < float64 (Int.tdiv d Hour : ℚ) := float64_pos _ hposq
    linarith

theorem Hours_neg_of_neg (d : Duration) (h : d < 0) : Duration.Hours d < 0 := by
  have h1 : 0 < Duration.Hours (-d) := Hours_pos (-d) (Int.neg_pos_of_neg h)
  rw [Hours_neg] at h1
  linarith

theorem lookupKey_mem (key : String) (v : ℚ) :
    ∀ l : List (String × ℚ), lookupKey key l = some v → (key, v) ∈ l := by
  intro l
  induction l with
  | nil => intro h; simp [lookupKey] at h
  | cons p rest ih =>
    intro h
    obtain ⟨k, w⟩ := p
    by_cases hk : key = k
    · simp only [lookupKey, hk, if_true, Option.some.injEq] at h
      rw [hk, h]
      exact List.mem_cons_self _ _
    · simp only [lookupKey, hk, if_false] at h
      exact List.mem_cons_of_mem _ (ih h)

/-- Every hourly rate of the pricing table is positive. -/
theorem instancePricing_pos (key : String) (rate : ℚ) (h : instancePricing key = some rate) :
    0 < rate := by
  have hmem := lookupKey_mem key rate instancePricingTable h
  simp only [instancePricingTable, List.mem_cons, Prod.mk.injEq, List.mem_singleton,
    List.not_mem_nil, or_false] at hmem
  rcases hmem with h | h | h | h | h | h | h | h | h | h | h | h | h | h | h | h | h | h | h
    | h | h | h | h | h | h | h | h | h <;>
  · rw [h.2]
    exact float64_pos _ (by norm_num)

theorem Sub_of_fits (t u : Time) (h1 : minDuration ≤ t - u) (h2 : t - u ≤ maxDuration) :
    Time.Sub t u = t - u := by
  simp [Time.Sub, h1, h2]

theorem Sub_nonneg (t u : Time) (h : u ≤ t) : 0 ≤ Time.Sub t u := by
  unfold Time.Sub
  simp only
  split
  · exact Int.sub_nonneg_of_le h
  · rw [if_neg (Int.not_lt.mpr h)]
    decide

/-! ## Accuracy of the float64 operations -/

theorem roundHalfEven_abs_sub_le (q : ℚ) : |(roundHalfEven q : ℚ) - q| ≤ 1 / 2 := by
  have h1 : (⌊q⌋ : ℚ) ≤ q := Int.floor_le q
  have h2 : q < ⌊q⌋ + 1 := Int.lt_floor_add_one q
  unfold roundHalfEven
  simp only
  rw [abs_le]
  by_cases ha : q - ⌊q⌋ < 1 / 2
  · rw [if_pos ha]
    constructor <;> linarith
  · by_cases hb : 1 / 2 < q - ⌊q⌋
    · rw [if_neg ha, if_pos hb]
      push_cast
      constructor <;> linarith
    · have heq : q - ⌊q⌋ = 1 / 2 := le_antisymm (not_lt.mp hb) (not_lt.mp ha)
      rw [if_neg ha, if_neg hb]
      split
      · constructor <;> linarith
      · push_cast
        constructor <;> linarith

/-- Rounding to float64 has relative error at most `2^-53`. -/
theorem float64_rel_err (q : ℚ) : |float64 q - q| ≤ |q| / 2 ^ 53 := by
  by_cases hq : q = 0
  · simp [hq, float64_zero]
  · have hpos : 0 < |q| := abs_pos.mpr hq
    have hulp : (0 : ℚ) < 2 ^ (Int.log 2 |q| - 52) := zpow_pos (by norm_num) _
    have hlow : (2 : ℚ) ^ (Int.log 2 |q|) ≤ |q| := by
      have := Int.zpow_log_le_self (b := 2) (r := |q|) (by norm_num) hpos
      simpa using this
    have hsplit : (2 : ℚ) ^ (Int.log 2 |q|) = 2 ^ (52 : ℤ) * 2 ^ (Int.log 2 |q| - 52) := by
      rw [← zpow_add₀ (by norm_num : (2 : ℚ) ≠ 0)]
      congr 1
      ring
    have hr := roundHalfEven_abs_sub_le (q / 2 ^ (Int.log 2 |q| - 52))
    have hdiff : float64 q - q
        = ((roundHalfEven (q / 2 ^ (Int.log 2 |q| - 52)) : ℚ) - q / 2 ^ (Int.log 2 |q| - 52))
            * 2 ^ (Int.log 2 |q| - 52) := by
      unfold float64
      rw [if_neg hq]
      field_simp
    rw [hdiff, abs_mul, abs_of_pos hulp]
    have h52 : (2 : ℚ) ^ (52 : ℤ) = 2 ^ 52 := by norm_num
    rw [hsplit, h52] at hlow
    calc |(roundHalfEven (q / 2 ^ (Int.log 2 |q| - 52)) : ℚ) - q / 2 ^ (Int.log 2 |q| - 52)|
          * 2 ^ (Int.log 2 |q| - 52)
        ≤ 1 / 2 * 2 ^ (Int.log 2 |q| - 52) := mul_le_mul_of_nonneg_right hr hulp.le
      _ = (2 ^ 52 * 2 ^ (Int.log 2 |q| - 52)) / 2 ^ 53 := by ring
      _ ≤ |q| / 2 ^ 53 := div_le_div_of_nonneg_right hlow (by norm_num)

/-- An integer of magnitude below `2^53` is a float64: the conversion is exact. -/
theorem float64_intCast (n : ℤ) (h : |n| < 2 ^ 53) : float64 (n : ℚ) = n := by
  by_cases hn : n = 0
  · simp [hn, float64_zero]
  · have hq : (n : ℚ) ≠ 0 := by exact_mod_cast hn
    have habs1 : (1 : ℚ) ≤ |(n : ℚ)| := by
      have : (1 : ℤ) ≤ |n| := Int.one_le_abs hn
      exact_mod_cast this
    have habs2 : |(n : ℚ)| < 2 ^ (53 : ℤ) := by
      have h3 : ((|n| : ℤ) : ℚ) < 2 ^ 53 := by exact_mod_cast h
      rw [Int.cast_abs] at h3
      have h4 : (2 : ℚ) ^ (53 : ℤ) = 2 ^ 53 := by norm_num
      rw [h4]
      exact h3
    have hpos : 0 < |(n : ℚ)| := lt_of_lt_of_le (by norm_num) habs1
    have hb : 1 < 2 := by norm_num
    have hlo : 0 ≤ Int.log 2 |(n : ℚ)| := by
      rw [← Int.zpow_le_iff_le_log hb hpos]
      simpa using habs1
    have hhi : Int.log 2 |(n : ℚ)| < 53 := by
      rw [← Int.lt_zpow_iff_log_lt hb hpos]
      simpa using habs2
    obtain ⟨k, hk⟩ : ∃ k : ℕ, 52 - Int.log 2 |(n : ℚ)| = k :=
      ⟨(52 - Int.log 2 |(n : ℚ)|).toNat, by omega⟩
    have hexp : Int.log 2 |(n : ℚ)| - 52 = -(k : ℤ) := by omega
    have hquot : (n : ℚ) / 2 ^ (Int.log 2 |(n : ℚ)| - 52) = ((n * 2 ^ k : ℤ) : ℚ) := by
      rw [hexp, zpow_neg, zpow_natCast]
      push_cast
      field_simp
    unfold float64
    rw [if_neg hq]
    simp only
    rw [hquot, roundHalfEven_intCast, hexp, zpow_neg, zpow_natCast]
    push_cast
    field_simp

/-- `Duration.Hours` is the exact number of hours up to a relative error of
`2^-52 + 2^-106`, for every duration within the `int64` range. -/
theorem Hours_rel_err (d : Duration) (h1 : minDuration ≤ d) (h2 : d ≤ maxDuration) :
    |Duration.Hours d - (d : ℚ) / 3600000000000|
      ≤ (2 / 2 ^ 53 + 1 / 2 ^ 106) * |(d : ℚ) / 3600000000000| := by
  -- reduce to a non-negative duration
  have key : ∀ x : Int, 0 ≤ x → x ≤ 2 ^ 63 →
      |Duration.Hours x - (x : ℚ) / 3600000000000|
        ≤ (2 / 2 ^ 53 + 1 / 2 ^ 106) * |(x : ℚ) / 3600000000000| := by
    intro x hx0 hx1
    have hH : (0 : Int) ≤ Hour := by decide
    have hdiv : Int.tdiv x Hour = x / 3600000000000 := Int.tdiv_eq_ediv hx0 hH
    have hmod : Int.tmod x Hour = x % 3600000000000 := Int.tmod_eq_emod hx0 hH
    have hq0 : 0 ≤ x / 3600000000000 := by omega
    have hq1 : x / 3600000000000 < 2 ^ 53 := by omega
    have hr0 : 0 ≤ x % 3600000000000 := by omega
    have hr1 : x % 3600000000000 < 2 ^ 53 := by omega
    have hsum : x = 3600000000000 * (x / 3600000000000) + x % 3600000000000 := by omega
    have e1 : float64 ((x / 3600000000000 : ℤ) : ℚ) = ((x / 3600000000000 : ℤ) : ℚ) :=
      float64_intCast _ (by rw [abs_of_nonneg hq0]; exact hq1)
    have e2 : float64 ((x % 3600000000000 : ℤ) : ℚ) = ((x % 3600000000000 : ℤ) : ℚ) :=
      float64_intCast _ (by rw [abs_of_nonneg hr0]; exact hr1)
    have hqq : (0 : ℚ) ≤ ((x / 3600000000000 : ℤ) : ℚ) := by exact_mod_cast hq0
    have hrq : (0 : ℚ) ≤ ((x % 3600000000000 : ℤ) : ℚ) := by exact_mod_cast hr0
    have hexact : (x : ℚ) / 3600000000000
        = ((x / 3600000000000 : ℤ) : ℚ) + ((x % 3600000000000 : ℤ) : ℚ) / 3600000000000 := by
      have : (x : ℚ) = 3600000000000 * ((x / 3600000000000 : ℤ) : ℚ)
          + ((x % 3600000000000 : ℤ) : ℚ) := by exact_mod_cast hsum
      rw [this]
      field_simp
      ring
    unfold Duration.Hours
    simp only [hdiv, hmod]
    rw [e1, e2, hexact]
    set a : ℚ := ((x / 3600000000000 : ℤ) : ℚ) with ha
    set b : ℚ := ((x % 3600000000000 : ℤ) : ℚ) / 3600000000000 with hb
    have hb0 : 0 ≤ b := div_nonneg hrq (by norm_num)
    have hfb := float64_rel_err b
    have hfb0 : 0 ≤ float64 b := float64_nonneg b hb0
    have hfs := float64_rel_err (a + float64 b)
    rw [abs_of_nonneg hb0] at hfb
    rw [abs_of_nonneg (add_nonneg hqq hfb0)] at hfs
    rw [abs_of_nonneg (add_nonneg hqq hb0)]
    have hfb' := abs_le.mp hfb
    have hfs' := abs_le.mp hfs
    rw [abs_le]
    have hu : (0 : ℚ) ≤ a := hqq
    constructor
    · nlinarith [hfb'.1, hfb'.2, hfs'.1, hfs'.2]
    · nlinarith [hfb'.1, hfb'.2, hfs'.1, hfs'.2]
  have h1i : @LE.le Int _ (-2 ^ 63) d := h1
  have hmax : maxDuration = 9223372036854775807 := by decide
  rw [hmax] at h2
  have h2i : @LE.le Int _ d 9223372036854775807 := h2
  by_cases hd : (0 : Int) ≤ d
  · exact key d hd (by omega)
  · have hneg : (0 : Int) ≤ -d := by omega
    have := key (-d) hneg (by omega)
    rw [Hours_neg] at this
    have hcast : ((-d : ℤ) : ℚ) / 3600000000000 = -((d : ℚ) / 3600000000000) := by
      push_cast
      ring
    rw [hcast, ← neg_sub', abs_neg, abs_neg] at this
    exact this

/-- The float64 product of `Hours()` and a rate is the exact product of the
elapsed hours and the rate up to a relative error of `2^-51`. -/
theorem hours_times_rate_rel_err (d : Duration) (price : ℚ) (h1 : minDuration ≤ d)
    (h2 : d ≤ maxDuration) :
    |float64 (Duration.Hours d * price) - (d : ℚ) / 3600000000000 * price|
      ≤ |(d : ℚ) / 3600000000000 * price| / 2 ^ 51 := by
  have hH := Hours_rel_err d h1 h2
  have hv := float64_rel_err (Duration.Hours d * price)
  set H : ℚ := Duration.Hours d with hHdef
  set E : ℚ := (d : ℚ) / 3600000000000 with hEdef
  have hP : 0 ≤ |price| := abs_nonneg _
  have hX : 0 ≤ |E| := abs_nonneg _
  have hHabs : |H| ≤ (1 + (2 / 2 ^ 53 + 1 / 2 ^ 106)) * |E| := by
    have := abs_sub_abs_le_abs_sub H E
    linarith
  have tri : |float64 (H * price) - E * price|
      ≤ |float64 (H * price) - H * price| + |H * price - E * price| := abs_sub_le _ _ _
  have e2 : |H * price - E * price| = |H - E| * |price| := by rw [← sub_mul, abs_mul]
  have e3 : |H * price| = |H| * |price| := abs_mul _ _
  have e4 : |E * price| = |E| * |price| := abs_mul _ _
  have s1 : |H - E| * |price| ≤ (2 / 2 ^ 53 + 1 / 2 ^ 106) * |E| * |price| :=
    mul_le_mul_of_nonneg_right hH hP
  have s2 : |H| * |price| ≤ (1 + (2 / 2 ^ 53 + 1 / 2 ^ 106)) * |E| * |price| :=
    mul_le_mul_of_nonneg_right hHabs hP
  have hXP : 0 ≤ |E| * |price| := mul_nonneg hX hP
  rw [e3] at hv
  rw [e2] at tri
  rw [e4]
  have hnum : (1 + (2 / 2 ^ 53 + 1 / 2 ^ 106)) / 2 ^ 53 + (2 / 2 ^ 53 + 1 / 2 ^ 106)
      ≤ (1 : ℚ) / 2 ^ 51 := by norm_num
  calc |float64 (H * price) - E * price|
      ≤ |H| * |price| / 2 ^ 53 + |H - E| * |price| := by linarith
    _ ≤ (1 + (2 / 2 ^ 53 + 1 / 2 ^ 106)) * |E| * |price| / 2 ^ 53
          + (2 / 2 ^ 53 + 1 / 2 ^ 106) * |E| * |price| := by
        have := div_le_div_of_nonneg_right s2 (by norm_num : (0 : ℚ) ≤ 2 ^ 53)
        linarith
    _ = ((1 + (2 / 2 ^ 53 + 1 / 2 ^ 106)) / 2 ^ 53 + (2 / 2 ^ 53 + 1 / 2 ^ 106))
          * (|E| * |price|) := by ring
    _ ≤ 1 / 2 ^ 51 * (|E| * |price|) := mul_le_mul_of_nonneg_right hnum hXP
    _ = |E| * |price| / 2 ^ 51 := by ring

/-- The float64 rounding of a rational between `2^-8` and `2^3` lies between
`2^-9` and `2^4`. -/
theorem float64_within_factor_two (q : ℚ) (h1 : 1 / 256 ≤ q) (h2 : q ≤ 8) :
    1 / 512 ≤ float64 q ∧ float64 q ≤ 16 := by
  have h : 0 < q := by linarith
  have hr := float64_rel_err q
  rw [abs_of_pos h, abs_le] at hr
  have h53 : q / 2 ^ 53 ≤ q / 2 := by
    apply div_le_div_of_nonneg_left h.le (by norm_num) (by norm_num)
  constructor <;> linarith [hr.1, hr.2]

theorem int64_abs_le (d : Int) (h1 : -2 ^ 63 ≤ d) (h2 : d ≤ 9223372036854775807) :
    |d| ≤ 2 ^ 63 := by
  rw [abs_le]
  constructor <;> omega

/-- Every hourly rate of the pricing table lies between `2^-9` and `2^4`. -/
theorem instancePricing_bounds (key : String) (rate : ℚ) (h : instancePricing key = some rate) :
    1 / 512 ≤ rate ∧ rate ≤ 16 := by
  have hmem := lookupKey_mem key rate instancePricingTable h
  simp only [instancePricingTable, List.mem_cons, Prod.mk.injEq, List.mem_singleton,
    List.not_mem_nil, or_false] at hmem
  rcases hmem with h | h | h | h | h | h | h | h | h | h | h | h | h | h | h | h | h | h | h
    | h | h | h | h | h | h | h | h | h <;>
  · rw [h.2]
    exact float64_within_factor_two _ (by norm_num) (by norm_num)

/-- For a rate of the pricing table and an elapsed time within the `int64`
range, the float64 product of the hours and the rate is zero or lies in the
normal range of binary64. -/
theorem hours_times_rate_normal (d : Duration) (key : String) (price : ℚ)
    (hrate : instancePricing key = some price) (h1 : minDuration ≤ d) (h2 : d ≤ maxDuration) :
    float64 (Duration.Hours d * price) = 0 ∨
      ((2 : ℚ) ^ (-1022 : ℤ) ≤ |float64 (Duration.Hours d * price)| ∧
        |float64 (Duration.Hours d * price)| < 2 ^ 1024) := by
  have herr := hours_times_rate_rel_err d price h1 h2
  obtain ⟨hp1, hp2⟩ := instancePricing_bounds key price hrate
  have hp0 : 0 < price := by linarith
  have h1i : @LE.le Int _ (-2 ^ 63) d := h1
  have hmax : maxDuration = 9223372036854775807 := by decide
  rw [hmax] at h2
  have h2i : @LE.le Int _ d 9223372036854775807 := h2
  have hsplit : |(d : ℚ) / 3600000000000 * price| = |(d : ℚ)| * price / 3600000000000 := by
    rw [abs_mul, abs_div, abs_of_pos hp0, abs_of_pos (by norm_num : (0 : ℚ) < 3600000000000)]
    ring
  have htri1 := abs_sub_abs_le_abs_sub (float64 (Duration.Hours d * price))
    ((d : ℚ) / 3600000000000 * price)
  have htri2 := abs_sub_abs_le_abs_sub ((d : ℚ) / 3600000000000 * price)
    (float64 (Duration.Hours d * price))
  rw [abs_sub_comm] at htri2
  rw [hsplit] at herr htri1 htri2
  by_cases hd : d = 0
  · left
    subst hd
    simpa using herr
  · right
    have habs1 : (1 : ℤ) ≤ |d| := Int.one_le_abs hd
    have habs2 : |d| ≤ (2 : ℤ) ^ 63 := int64_abs_le d h1i h2i
    have habs1q : (1 : ℚ) ≤ |(d : ℚ)| := by
      rw [← Int.cast_abs]
      exact_mod_cast habs1
    have habs2q : |(d : ℚ)| ≤ 2 ^ 63 := by
      rw [← Int.cast_abs]
      exact_mod_cast habs2
    have hprod_lo : 1 / 512 ≤ |(d : ℚ)| * price := by nlinarith
    have hprod_hi : |(d : ℚ)| * price ≤ 2 ^ 63 * 16 := by nlinarith
    have hX0 : 0 ≤ |(d : ℚ)| * price / 3600000000000 :=
      div_nonneg (by linarith) (by norm_num)
    have hXlo : 1 / 512 / 3600000000000 ≤ |(d : ℚ)| * price / 3600000000000 :=
      div_le_div_of_nonneg_right hprod_lo (by norm_num)
    have hXhi : |(d : ℚ)| * price / 3600000000000 ≤ 2 ^ 63 * 16 / 3600000000000 :=
      div_le_div_of_nonneg_right hprod_hi (by norm_num)
    have hXerr : |(d : ℚ)| * price / 3600000000000 / 2 ^ 51
        ≤ |(d : ℚ)| * price / 3600000000000 / 2 :=
      div_le_div_of_nonneg_left hX0 (by norm_num) (by norm_num)
    have hz : (2 : ℚ) ^ (-1022 : ℤ) ≤ 1 / 2 ^ 60 := by
      have h60 : (1 : ℚ) / 2 ^ 60 = 2 ^ (-60 : ℤ) := by norm_num
      rw [h60]
      exact zpow_le_zpow_right₀ (by norm_num) (by norm_num)
    have hbig : (2 : ℚ) ^ 30 < 2 ^ 1024 := pow_lt_pow_right₀ (by norm_num) (by norm_num)
    constructor
    · refine le_trans hz ?_
      have hc : (1 : ℚ) / 2 ^ 60 ≤ 1 / 512 / 3600000000000 / 2 := by norm_num
      linarith
    · refine lt_of_le_of_lt ?_ hbig
      have hc : (2 : ℚ) ^ 63 * 16 / 3600000000000 * 2 ≤ 2 ^ 30 := by norm_num
      linarith

/-! ## Sentinels and the cap -/

theorem getPrice_of_unpriced (d : Data) (now : Time) (h : instancePricing d.Type_ = none) :
    d.getPrice now = -1 := by
  simp [Data.getPrice, h]

theorem getPriceSinceMonthStarted_of_unpriced (d : Data) (bom : String) (now : Time)
    (h : instancePricing d.Type_ = none) : d.getPriceSinceMonthStarted bom now = -1 := by
  simp [Data.getPriceSinceMonthStarted, h]

/-- C2: for every record, every value of `beginningOfMonth` and every pair of
clock readings, the record returned by `ToFinalData` has
`PriceThisMonth ≤ PriceSinceCreation`. -/
theorem ToFinalData_priceThisMonth_le (d : Data) (bom : String) (now1 now2 : Time) :
    (d.ToFinalData bom now1 now2).PriceThisMonth ≤
      (d.ToFinalData bom now1 now2).PriceSinceCreation := by
  simp only [Data.ToFinalData]
  split
  · exact le_refl _
  · rename_i h
    exact not_lt.mp h

/-- C3: when the type of a record is not a key of `instancePricing`, `getPrice`
and `getPriceSinceMonthStarted` return `-1` and both price fields of the record
returned by `ToFinalData` are `-1`, whatever `Created`, `beginningOfMonth` and
the clock readings are. -/
theorem unpriced_type_gives_sentinel (d : Data) (bom : String) (now1 now2 : Time)
    (h : instancePricing d.Type_ = none) :
    d.getPrice now1 = -1 ∧ d.getPriceSinceMonthStarted bom now2 = -1 ∧
      (d.ToFinalData bom now1 now2).PriceSinceCreation = -1 ∧
      (d.ToFinalData bom now1 now2).PriceThisMonth = -1 := by
  have h1 := getPrice_of_unpriced d now1 h
  have h2 := getPriceSinceMonthStarted_of_unpriced d bom now2 h
  refine ⟨h1, h2, ?_, ?_⟩
  · simp [Data.ToFinalData, h1]
  · simp [Data.ToFinalData, h1, h2]

theorem unpriced_type_gives_sentinel_witness :
    instancePricing ({ exampleData with Type_ := "unknown-type" } : Data).Type_ = none ∧
    (({ exampleData with Type_ := "unknown-type" } : Data).getPrice 63839750400000000000 = -1 ∧
      ({ exampleData with Type_ := "unknown-type" } : Data).getPriceSinceMonthStarted
        "2024-01-01T00:00:00" 63839750400000000000 = -1 ∧
      (({ exampleData with Type_ := "unknown-type" } : Data).ToFinalData
        "2024-01-01T00:00:00" 63839750400000000000 63839750400000000000).PriceSinceCreation = -1 ∧
      (({ exampleData with Type_ := "unknown-type" } : Data).ToFinalData
        "2024-01-01T00:00:00" 63839750400000000000 63839750400000000000).PriceThisMonth = -1) :=
  ⟨by decide, unpriced_type_gives_sentinel _ _ _ _ (by decide)⟩

/-- C6: when the type of a record is priced but `Created` does not parse with
the layout `2006-01-02T15:04:05`, `priceSince` returns an error, `getPrice`
returns `-1`, and `ToFinalData` returns a record with `PriceSinceCreation = -1`. -/
theorem unparsable_created_gives_sentinel (d : Data) (bom : String) (now1 now2 : Time) (rate : ℚ)
    (hrate : instancePricing d.Type_ = some rate) (hparse : timeParse d.Created = none) :
    priceSince now1 d.Created rate = none ∧ d.getPrice now1 = -1 ∧
      (d.ToFinalData bom now1 now2).PriceSinceCreation = -1 := by
  have h0 : priceSince now1 d.Created rate = none := by simp [priceSince, hparse]
  have h1 : d.getPrice now1 = -1 := by simp [Data.getPrice, hrate, h0]
  exact ⟨h0, h1, by simp [Data.ToFinalData, h1]⟩

theorem unparsable_created_gives_sentinel_witness :
    instancePricing ({ exampleData with Created := "2024-01-01 00:00:00" } : Data).Type_
        = some (float64 0.015) ∧
      timeParse ({ exampleData with Created := "2024-01-01 00:00:00" } : Data).Created = none ∧
      (priceSince 63839750400000000000
          ({ exampleData with Created := "2024-01-01 00:00:00" } : Data).Created (float64 0.015)
          = none ∧
        ({ exampleData with Created := "2024-01-01 00:00:00" } : Data).getPrice
          63839750400000000000 = -1 ∧
        (({ exampleData with Created := "2024-01-01 00:00:00" } : Data).ToFinalData
          "2024-01-01T00:00:00" 63839750400000000000 63839750400000000000).PriceSinceCreation
          = -1) :=
  ⟨by rfl, by decide, unparsable_created_gives_sentinel _ _ _ _ _ (by rfl) (by decide)⟩

/-! ## Total cost -/

theorem getPrice_eq (d : Data) (now : Time) (rate : ℚ) (created : Time)
    (hrate : instancePricing d.Type_ = some rate) (hparse : timeParse d.Created = some created) :
    d.getPrice now = float64 (Duration.Hours (Time.Sub now created) * rate) := by
  simp [Data.getPrice, hrate, priceSince, hparse]

theorem getPriceSinceMonthStarted_eq (d : Data) (bom : String) (now : Time) (rate : ℚ)
    (start : Time) (hrate : instancePricing d.Type_ = some rate)
    (hparse : timeParse bom = some start) :
    d.getPriceSinceMonthStarted bom now
      = float64 (Duration.Hours (Time.Sub now start) * rate) := by
  simp [Data.getPriceSinceMonthStarted, hrate, priceSince, hparse]

theorem Hours_one_day : Duration.Hours 86400000000000 = 24 := by
  have h1 : Int.tdiv 86400000000000 Hour = 24 := by decide
  have h2 : Int.tmod 86400000000000 Hour = 0 := by decide
  unfold Duration.Hours
  simp only [h1, h2]
  norm_num [float64_zero, float64_24]

theorem Hours_maxDuration : Duration.Hours maxDuration = 2750977865078623 / 1073741824 := by
  have h1 : Int.tdiv maxDuration Hour = 2562047 := by decide
  have h2 : Int.tmod maxDuration Hour = 2836854775807 := by decide
  have e1 : float64 2562047 = 2562047 := by
    apply float64_cert _ _ 21 5501954037907456 <;> norm_num
  have e2 : float64 2836854775807 = 2836854775807 := by
    apply float64_cert _ _ 41 5809878580852736 <;> norm_num
  have e3 : float64 (2836854775807 / 3600000000000)
      = 1774452515448419 / 2251799813685248 := by
    apply float64_cert _ _ (-1) 7097810061793676 <;> norm_num
  have e4 : float64 (2562047 + 1774452515448419 / 2251799813685248)
      = 2750977865078623 / 1073741824 := by
    apply float64_cert _ _ 21 5501955730157246 <;> norm_num
  unfold Duration.Hours
  simp only [h1, h2]
  push_cast
  rw [e1, e2, e3, e4]

theorem Hours_8976216 : Duration.Hours 32314377600000000000 = 8976216 := by
  have h1 : Int.tdiv 32314377600000000000 Hour = 8976216 := by decide
  have h2 : Int.tmod 32314377600000000000 Hour = 0 := by decide
  have e1 : float64 8976216 = 8976216 := by
    apply float64_cert _ _ 23 4819069270228992 <;> norm_num
  unfold Duration.Hours
  simp only [h1, h2]
  norm_num [float64_zero, e1]

theorem Hours_half : Duration.Hours (-1800000000000) = -(1 / 2) := by
  have h1 : Int.tdiv 1800000000000 Hour = 0 := by decide
  have h2 : Int.tmod 1800000000000 Hour = 1800000000000 := by decide
  have e1 : float64 1800000000000 = 1800000000000 := by
    apply float64_cert _ _ 40 7372800000000000 <;> norm_num
  have e2 : float64 (1 / 2) = 1 / 2 := by
    apply float64_cert _ _ (-1) 4503599627370496 <;> norm_num
  have hpos : Duration.Hours 1800000000000 = 1 / 2 := by
    unfold Duration.Hours
    simp only [h1, h2]
    push_cast
    rw [float64_zero, e1]
    norm_num [e2]
  have := Hours_neg 1800000000000
  rw [hpos] at this
  exact this

/-- C7 (amended): for every record with a priced type and a creation timestamp
that parses and is not later than the current time, `getPrice` is `≥ 0`. -/
theorem getPrice_nonneg (d : Data) (now : Time) (rate : ℚ) (created : Time)
    (hrate : instancePricing d.Type_ = some rate) (hparse : timeParse d.Created = some created)
    (hpast : created ≤ now) : 0 ≤ d.getPrice now := by
  rw [getPrice_eq d now rate created hrate hparse]
  apply float64_nonneg
  exact mul_nonneg (Hours_nonneg _ (Sub_nonneg now created hpast))
    (instancePricing_pos _ _ hrate).le

theorem getPrice_nonneg_witness :
    instancePricing exampleData.Type_ = some (float64 0.015) ∧
      timeParse exampleData.Created = some 63839664000000000000 ∧
      (63839664000000000000 : Time) ≤ 63839750400000000000 ∧
      0 ≤ exampleData.getPrice 63839750400000000000 :=
  ⟨by rfl, by decide, by decide,
    getPrice_nonneg exampleData 63839750400000000000 (float64 0.015) 63839664000000000000
      (by rfl) (by decide) (by decide)⟩

/-- C7 as stated fails when the creation timestamp lies after the current time:
a `g6-standard-1` record created `2030-01-01T00:00:00`, priced at
`2024-01-01T00:00:00`, has a well-formed timestamp and a priced type and a
negative total cost. -/
theorem getPrice_negative_for_future_created :
    instancePricing ({ exampleData with Created := "2030-01-01T00:00:00" } : Data).Type_
        = some (float64 0.015) ∧
      timeParse ({ exampleData with Created := "2030-01-01T00:00:00" } : Data).Created
        = some 64029052800000000000 ∧
      ({ exampleData with Created := "2030-01-01T00:00:00" } : Data).getPrice
        63839664000000000000 < 0 := by
  have hrate : instancePricing
      ({ exampleData with Created := "2030-01-01T00:00:00" } : Data).Type_
        = some (float64 0.015) := by rfl
  have hparse : timeParse ({ exampleData with Created := "2030-01-01T00:00:00" } : Data).Created
      = some 64029052800000000000 := by decide
  refine ⟨hrate, hparse, ?_⟩
  rw [getPrice_eq _ _ _ _ hrate hparse]
  have hsub : Time.Sub 63839664000000000000 64029052800000000000 = -189388800000000000 := by
    decide
  rw [hsub]
  apply float64_neg_of_neg
  exact mul_neg_of_neg_of_pos (Hours_neg_of_neg _ (by decide)) (float64_pos _ (by norm_num))

/-- C4 (amended): with the current time an explicit input, for every timestamp
that parses with the layout and lies within an `int64` of nanoseconds of the
current time, and every hourly rate of the pricing table, `priceSince` returns
without error the float64 product of `Hours()` of the elapsed time and the
rate; this product is the exact product of the elapsed hours and the rate up to
a relative error of `2^-51`, and it is zero or lies in the normal range of
binary64, so it neither overflows nor is subnormal; a `g6-standard-1` record
created `2024-01-01T00:00:00` and priced at `2024-01-02T00:00:00` has
`getPrice` equal to the float64 product `24 * 0.015`, which is the float64
nearest to `0.36`. -/
theorem priceSince_eq_hours_times_rate (now : Time) (dateStr : String) (key : String)
    (price : ℚ) (date : Time)
    (hrate : instancePricing key = some price)
    (hparse : timeParse dateStr = some date)
    (hlo : minDuration ≤ now - date) (hhi : now - date ≤ maxDuration) :
    priceSince now dateStr price = some (float64 (Duration.Hours (now - date) * price)) ∧
      |float64 (Duration.Hours (now - date) * price)
          - ((now - date : ℤ) : ℚ) / 3600000000000 * price|
        ≤ |((now - date : ℤ) : ℚ) / 3600000000000 * price| / 2 ^ 51 ∧
      (float64 (Duration.Hours (now - date) * price) = 0 ∨
        ((2 : ℚ) ^ (-1022 : ℤ) ≤ |float64 (Duration.Hours (now - date) * price)| ∧
          |float64 (Duration.Hours (now - date) * price)| < 2 ^ 1024)) ∧
      exampleData.getPrice 63839750400000000000 = float64 (24 * float64 0.015) ∧
      float64 (24 * float64 0.015) = float64 0.36 ∧
      float64 0.36 = 3242591731706757 / 9007199254740992 := by
  refine ⟨?_, hours_times_rate_rel_err (now - date) price hlo hhi,
    hours_times_rate_normal (now - date) key price hrate hlo hhi, ?_, ?_, float64_036⟩
  · simp [priceSince, hparse, Sub_of_fits now date hlo hhi]
  · have hrate : instancePricing exampleData.Type_ = some (float64 0.015) := by rfl
    have hp : timeParse exampleData.Created = some 63839664000000000000 := by decide
    have hsub : Time.Sub 63839750400000000000 63839664000000000000 = 86400000000000 := by
      decide
    rw [getPrice_eq _ _ _ _ hrate hp, hsub, Hours_one_day]
  · rw [float64_rate, float64_24_rate, float64_036]

theorem priceSince_eq_hours_times_rate_witness :
    instancePricing "g6-standard-1" = some (float64 0.015) ∧
      timeParse "2024-01-01T00:00:00" = some 63839664000000000000 ∧
      minDuration ≤ (63839750400000000000 : Time) - 63839664000000000000 ∧
      (63839750400000000000 : Time) - 63839664000000000000 ≤ maxDuration ∧
      (priceSince 63839750400000000000 "2024-01-01T00:00:00" (float64 0.015)
          = some (float64 (Duration.Hours (63839750400000000000 - 63839664000000000000)
              * float64 0.015)) ∧
        |float64 (Duration.Hours (63839750400000000000 - 63839664000000000000) * float64 0.015)
            - (((63839750400000000000 : Time) - 63839664000000000000 : ℤ) : ℚ)
                / 3600000000000 * float64 0.015|
          ≤ |(((63839750400000000000 : Time) - 63839664000000000000 : ℤ) : ℚ)
                / 3600000000000 * float64 0.015| / 2 ^ 51 ∧
        (float64 (Duration.Hours (63839750400000000000 - 63839664000000000000)
              * float64 0.015) = 0 ∨
          ((2 : ℚ) ^ (-1022 : ℤ)
              ≤ |float64 (Duration.Hours (63839750400000000000 - 63839664000000000000)
                  * float64 0.015)| ∧
            |float64 (Duration.Hours (63839750400000000000 - 63839664000000000000)
                * float64 0.015)| < 2 ^ 1024)) ∧
        exampleData.getPrice 63839750400000000000 = float64 (24 * float64 0.015) ∧
        float64 (24 * float64 0.015) = float64 0.36 ∧
        float64 0.36 = 3242591731706757 / 9007199254740992) :=
  ⟨by rfl, by decide, by decide, by decide,
    priceSince_eq_hours_times_rate 63839750400000000000 "2024-01-01T00:00:00" "g6-standard-1"
      (float64 0.015) 63839664000000000000 (by rfl) (by decide) (by decide) (by decide)⟩

/-- C4 as stated fails for a timestamp more than `2^63` nanoseconds (about 292
years) before the current time: `1000-01-01T00:00:00` parses, `8976216` hours
elapse until `2024-01-02T00:00:00`, but `priceSince` returns the product of the
rate with the hours of the largest `Duration` (about `38430.72`), not with the
hours elapsed (about `134643.24`). -/
theorem priceSince_saturates :
    timeParse "1000-01-01T00:00:00" = some 31525372800000000000 ∧
      (63839750400000000000 : Time) - 31525372800000000000 = 8976216 * Hour ∧
      priceSince 63839750400000000000 "1000-01-01T00:00:00" (float64 0.015)
        = some (float64 (Duration.Hours maxDuration * float64 0.015)) ∧
      float64 (Duration.Hours maxDuration * float64 0.015)
        = 1320469375237739 / 34359738368 ∧
      float64 (Duration.Hours (63839750400000000000 - 31525372800000000000) * float64 0.015)
        = 578288312427479 / 4294967296 ∧
      priceSince 63839750400000000000 "1000-01-01T00:00:00" (float64 0.015)
        ≠ some (float64 (Duration.Hours (63839750400000000000 - 31525372800000000000)
            * float64 0.015)) := by
  have hparse : timeParse "1000-01-01T00:00:00" = some 31525372800000000000 := by decide
  have hsub : Time.Sub 63839750400000000000 31525372800000000000 = maxDuration := by decide
  have hcode : priceSince 63839750400000000000 "1000-01-01T00:00:00" (float64 0.015)
      = some (float64 (Duration.Hours maxDuration * float64 0.015)) := by
    simp [priceSince, hparse, hsub]
  have hdiff : (63839750400000000000 : Time) - 31525372800000000000 = 32314377600000000000 := by
    decide
  have r1 : float64 (2750977865078623 / 1073741824 * (1080863910568919 / 72057594037927936))
      = 1320469375237739 / 34359738368 := by
    apply float64_cert _ _ 15 5281877500950956 <;> norm_num
  have r2 : float64 (8976216 * (1080863910568919 / 72057594037927936))
      = 578288312427479 / 4294967296 := by
    apply float64_cert _ _ 17 4626306499419832 <;> norm_num
  have v1 : float64 (Duration.Hours maxDuration * float64 0.015)
      = 1320469375237739 / 34359738368 := by
    rw [Hours_maxDuration, float64_rate, r1]
  have v2 : float64 (Duration.Hours (63839750400000000000 - 31525372800000000000)
      * float64 0.015) = 578288312427479 / 4294967296 := by
    rw [hdiff, Hours_8976216, float64_rate, r2]
  refine ⟨hparse, by decide, hcode, v1, v2, ?_⟩
  rw [hcode, v1, v2]
  norm_num

/-! ## Month-to-date cost -/

/-- C8: at `2024-01-31T23:30:00` UTC in a process whose local zone is one hour
east of UTC, the UTC month is January 2024, but `beginningOfMonth` is
`2024-02-01T00:00:00`, which `priceSince` parses as the first instant of
February in UTC, half an hour after the current time; the month-to-date cost of
a `g6-standard-1` record is then negative, while the cost measured from the
first instant of the UTC month, `2024-01-01T00:00:00`, is positive. -/
theorem beginningOfMonth_takes_local_month :
    timeParse "2024-01-31T23:30:00" = some 63842340600000000000 ∧
      Time.Date 63842340600000000000 0 = (2024, 1) ∧
      Time.Date 63842340600000000000 3600 = (2024, 2) ∧
      beginningOfMonth 63842340600000000000 3600 = "2024-02-01T00:00:00" ∧
      timeParse (beginningOfMonth 63842340600000000000 3600) = some (Date 2024 2 1 0 0 0 0) ∧
      Date 2024 1 1 0 0 0 0 < 63842340600000000000 ∧
      63842340600000000000 < Date 2024 2 1 0 0 0 0 ∧
      exampleData.getPriceSinceMonthStarted (beginningOfMonth 63842340600000000000 3600)
        63842340600000000000 = -(1080863910568919 / 144115188075855872) ∧
      exampleData.getPriceSinceMonthStarted (beginningOfMonth 63842340600000000000 3600)
        63842340600000000000
        ≠ float64 (Duration.Hours (63842340600000000000 - Date 2024 1 1 0 0 0 0)
            * float64 0.015) := by
  have hbom : beginningOfMonth 63842340600000000000 3600 = "2024-02-01T00:00:00" := by decide
  have hparse : timeParse (beginningOfMonth 63842340600000000000 3600)
      = some (Date 2024 2 1 0 0 0 0) := by
    rw [hbom]
    decide
  have hrate : instancePricing exampleData.Type_ = some (float64 0.015) := by rfl
  have hsub : Time.Sub 63842340600000000000 (Date 2024 2 1 0 0 0 0) = -1800000000000 := by
    decide
  have ehalf : float64 (1080863910568919 / 72057594037927936 / 2)
      = 1080863910568919 / 144115188075855872 := by
    apply float64_cert _ _ (-8) 8646911284551352 <;> norm_num
  have hval : exampleData.getPriceSinceMonthStarted
      (beginningOfMonth 63842340600000000000 3600) 63842340600000000000
        = -(1080863910568919 / 144115188075855872) := by
    rw [getPriceSinceMonthStarted_eq _ _ _ _ _ hrate hparse, hsub, Hours_half, float64_rate]
    have hre : -(1 / 2 : ℚ) * (1080863910568919 / 72057594037927936)
        = -(1080863910568919 / 72057594037927936 / 2) := by ring
    rw [hre, float64_neg, ehalf]
  have hjan : (0 : Time) < 63842340600000000000 - Date 2024 1 1 0 0 0 0 := by decide
  have hclaimed : 0 < float64 (Duration.Hours (63842340600000000000 - Date 2024 1 1 0 0 0 0)
      * float64 0.015) :=
    float64_pos _ (mul_pos (Hours_pos _ hjan) (float64_pos _ (by norm_num)))
  refine ⟨by decide, by decide, by decide, hbom, hparse, by decide, by decide, hval, ?_⟩
  rw [hval]
  intro h
  rw [← h] at hclaimed
  norm_num at hclaimed

/-! ## The filter loop -/

theorem containsTag_iff (tags : List String) (target : String) :
    containsTag tags target = true ↔ target ∈ tags := by
  induction tags with
  | nil => simp [containsTag]
  | cons t rest ih =>
    by_cases h : t = target
    · subst h
      simp [containsTag]
    · have h2 : ¬ target = t := fun e => h e.symm
      simp [containsTag, h, h2, ih]

theorem rangeSearchTags_of_no_match (bom : String) (now1 now2 : Time) (entry : Data)
    (finalData : List FinalData) :
    ∀ keys : List String, (∀ k ∈ keys, k ∉ entry.Tags) →
      rangeSearchTags bom now1 now2 entry keys finalData = finalData := by
  intro keys
  induction keys with
  | nil => intro _; simp [rangeSearchTags]
  | cons key rest ih =>
    intro h
    have hk : containsTag entry.Tags key = false := by
      rw [Bool.eq_false_iff]
      intro hc
      exact h key (List.mem_cons_self _ _) ((containsTag_iff _ _).mp hc)
    simp only [rangeSearchTags, hk]
    exact ih (fun k hkm => h k (List.mem_cons_of_mem _ hkm))

theorem rangeSearchTags_of_match (bom : String) (now1 now2 : Time) (entry : Data)
    (finalData : List FinalData) :
    ∀ keys : List String, (∃ k ∈ keys, k ∈ entry.Tags) →
      ∃ key, IsFirstMatch keys entry.Tags key ∧
        rangeSearchTags bom now1 now2 entry keys finalData
          = finalData ++ [emitted bom now1 now2 entry key] := by
  intro keys
  induction keys with
  | nil => intro h; obtain ⟨k, hk, _⟩ := h; simp at hk
  | cons key rest ih =>
    intro h
    by_cases hc : containsTag entry.Tags key = true
    · refine ⟨key, ⟨[], rest, rfl, ?_, (containsTag_iff _ _).mp hc⟩, ?_⟩
      · intro k hk; simp at hk
      · simp [rangeSearchTags, hc, emitted]
    · have hnot : key ∉ entry.Tags := fun hm => hc ((containsTag_iff _ _).mpr hm)
      have hrest : ∃ k ∈ rest, k ∈ entry.Tags := by
        obtain ⟨k, hk, hkt⟩ := h
        rcases List.mem_cons.mp hk with rfl | hk2
        · exact absurd hkt hnot
        · exact ⟨k, hk2, hkt⟩
      obtain ⟨k0, ⟨pre, post, hsplit, hpre, hk0⟩, hres⟩ := ih hrest
      refine ⟨k0, ⟨key :: pre, post, by simp [hsplit], ?_, hk0⟩, ?_⟩
      · intro k hk
        rcases List.mem_cons.mp hk with rfl | hk2
        · exact hnot
        · exact hpre k hk2
      · have hcf : containsTag entry.Tags key = false := by simpa using hc
        simp only [rangeSearchTags, hcf]
        exact hres

/-- The outer loop appends, for each entry from index `i` on that carries a
target tag, in order, the record of that entry tagged with the first key the
map yields that the entry carries. -/
theorem rangeData_spec (bom : String) (run : Run) (keys : List String)
    (h : ∀ i, (run.order i).Perm keys) :
    ∀ (entries : List Data) (i : Nat) (finalData : List FinalData),
      ∃ out, rangeData bom run i entries finalData = finalData ++ out ∧
        List.Forall₂
          (fun (p : Nat × Data) (x : FinalData) =>
            ∃ key, IsFirstMatch (run.order p.1) p.2.Tags key ∧ key ∈ keys ∧
              x = emitted bom (run.now1 p.1) (run.now2 p.1) p.2 key)
          ((entries.enumFrom i).filter (fun p => decide (∃ k ∈ keys, k ∈ p.2.Tags))) out := by
  intro entries
  induction entries with
  | nil =>
    intro i finalData
    exact ⟨[], by simp [rangeData], by simp⟩
  | cons e rest ih =>
    intro i finalData
    by_cases hm : ∃ k ∈ keys, k ∈ e.Tags
    · have hm2 : ∃ k ∈ run.order i, k ∈ e.Tags := by
        obtain ⟨k, hk, hkt⟩ := hm
        exact ⟨k, (h i).mem_iff.mpr hk, hkt⟩
      obtain ⟨key, hfirst, hres⟩ :=
        rangeSearchTags_of_match bom (run.now1 i) (run.now2 i) e finalData (run.order i) hm2
      obtain ⟨out, hout, hall⟩ :=
        ih (i + 1) (finalData ++ [emitted bom (run.now1 i) (run.now2 i) e key])
      refine ⟨emitted bom (run.now1 i) (run.now2 i) e key :: out, ?_, ?_⟩
      · simp only [rangeData, hres, hout]
        simp
      · have hkey : key ∈ keys := by
          obtain ⟨pre, post, hsplit, _, _⟩ := hfirst
          exact (h i).mem_iff.mp (by simp [hsplit])
        have hdec : decide (∃ k ∈ keys, k ∈ e.Tags) = true := by simpa using hm
        rw [List.enumFrom_cons, List.filter_cons_of_pos (by simpa using hm)]
        exact List.Forall₂.cons ⟨key, hfirst, hkey, rfl⟩ hall
    · have hm2 : ∀ k ∈ run.order i, k ∉ e.Tags := by
        intro k hk hkt
        exact hm ⟨k, (h i).mem_iff.mp hk, hkt⟩
      have hres :=
        rangeSearchTags_of_no_match bom (run.now1 i) (run.now2 i) e finalData (run.order i) hm2
      obtain ⟨out, hout, hall⟩ := ih (i + 1) finalData
      refine ⟨out, ?_, ?_⟩
      · simp only [rangeData, hres, hout]
      · rw [List.enumFrom_cons, List.filter_cons_of_neg (by simpa using hm)]
        exact hall

theorem filter_enumFrom_snd (P : Data → Bool) :
    ∀ (l : List Data) (i : Nat),
      ((l.enumFrom i).filter (fun p => P p.2)).map Prod.snd = l.filter P := by
  intro l
  induction l with
  | nil => intro i; simp
  | cons e rest ih =>
    intro i
    rw [List.enumFrom_cons]
    by_cases hp : P e = true
    · rw [List.filter_cons_of_pos (by simpa using hp), List.filter_cons_of_pos hp]
      simp [ih]
    · rw [List.filter_cons_of_neg (by simpa using hp), List.filter_cons_of_neg hp]
      exact ih (i + 1)

/-- C1: whatever order the map yields its keys in while each entry is
processed, the slice built by the loop of `main` holds exactly one record for
each entry whose `Tags` contain a target tag and none for the others: its
length is the number of such entries, and its records are, in order, the
records `ToFinalData` returns for those entries, each with some `Tag`. -/
theorem mainFinalData_one_per_matching_entry (bom : String) (run : Run) (keys : List String)
    (data : List Data) (h : ∀ i, (run.order i).Perm keys) :
    (mainFinalData bom run data).length
        = data.countP (fun e => decide (∃ k ∈ keys, k ∈ e.Tags)) ∧
      List.Forall₂
        (fun (e : Data) (x : FinalData) =>
          ∃ i key, x = { e.ToFinalData bom (run.now1 i) (run.now2 i) with Tag := key })
        (data.filter (fun e => decide (∃ k ∈ keys, k ∈ e.Tags)))
        (mainFinalData bom run data) := by
  obtain ⟨out, hout, hall⟩ := rangeData_spec bom run keys h data 0 []
  have hmain : mainFinalData bom run data = out := by simpa [mainFinalData] using hout
  have hsnd := filter_enumFrom_snd (fun e => decide (∃ k ∈ keys, k ∈ e.Tags)) data 0
  have hall2 : List.Forall₂
      (fun (e : Data) (x : FinalData) =>
        ∃ i key, x = { e.ToFinalData bom (run.now1 i) (run.now2 i) with Tag := key })
      (((data.enumFrom 0).filter (fun p => decide (∃ k ∈ keys, k ∈ p.2.Tags))).map Prod.snd)
      out := by
    rw [List.forall₂_map_left_iff]
    refine hall.imp ?_
    intro p x hx
    obtain ⟨key, _, _, hxe⟩ := hx
    exact ⟨p.1, key, hxe⟩
  rw [hsnd] at hall2
  rw [hmain]
  refine ⟨?_, hall2⟩
  rw [List.countP_eq_length_filter]
  exact hall2.length_eq.symm

/-- C5: each record in the slice built by the loop of `main` comes from one
entry that carries a target tag, in order, one record per such entry; its `Tag`
is a target tag, is among the entry's own `Tags`, and is the first key, in the
order the map yielded its keys for that entry, that the entry's `Tags`
contain. -/
theorem mainFinalData_tag_is_first_match (bom : String) (run : Run) (keys : List String)
    (data : List Data) (h : ∀ i, (run.order i).Perm keys) :
    List.Forall₂
      (fun (p : Nat × Data) (x : FinalData) =>
        x.Tag ∈ keys ∧ x.Tag ∈ p.2.Tags ∧
          (∃ pre post, run.order p.1 = pre ++ x.Tag :: post ∧ ∀ k ∈ pre, k ∉ p.2.Tags) ∧
          x = { p.2.ToFinalData bom (run.now1 p.1) (run.now2 p.1) with Tag := x.Tag })
      (data.enum.filter (fun p => decide (∃ k ∈ keys, k ∈ p.2.Tags)))
      (mainFinalData bom run data) := by
  obtain ⟨out, hout, hall⟩ := rangeData_spec bom run keys h data 0 []
  have hmain : mainFinalData bom run data = out := by simpa [mainFinalData] using hout
  rw [hmain, List.enum]
  refine hall.imp ?_
  intro p x hx
  obtain ⟨key, ⟨pre, post, hsplit, hpre, hkt⟩, hkeys, hxe⟩ := hx
  have htag : x.Tag = key := by rw [hxe]; rfl
  rw [htag]
  exact ⟨hkeys, hkt, ⟨pre, post, hsplit, hpre⟩, hxe⟩

/-- The sentinel is written to the CSV file as `-1.00`. -/
theorem FormatFloat_sentinel : FormatFloat (-1) = "-1.00" := by
  have h : roundHalfEven (|(-1 : ℚ)| * 100) = 100 := by
    have e : |(-1 : ℚ)| * 100 = ((100 : ℤ) : ℚ) := by norm_num
    rw [e, roundHalfEven_intCast]
  have hneg : (-1 : ℚ) < 0 := by norm_num
  unfold FormatFloat
  simp only [h, hneg, if_true]
  decide

/-- The cost of the one-day scenario is written to the CSV file as `0.36`. -/
theorem FormatFloat_scenario : FormatFloat (3242591731706757 / 9007199254740992) = "0.36" := by
  have h : roundHalfEven (|(3242591731706757 / 9007199254740992 : ℚ)| * 100) = 36 := by
    apply roundHalfEven_of_near
    rw [abs_of_pos (by norm_num : (0 : ℚ) < 3242591731706757 / 9007199254740992), abs_lt]
    constructor <;> norm_num
  have hpos : ¬ (3242591731706757 / 9007199254740992 : ℚ) < 0 := by norm_num
  unfold FormatFloat
  simp only [h, hpos, if_false]
  decide

theorem exampleRun_order_perm : ∀ i, (exampleRun.order i).Perm exampleKeys := by
  intro i
  simp only [exampleRun, exampleKeys]
  split
  · exact List.Perm.swap _ _ _
  · exact List.Perm.refl _

theorem mainFinalData_one_per_matching_entry_witness :
    (∀ i, (exampleRun.order i).Perm exampleKeys) ∧
    ((mainFinalData "2024-01-01T00:00:00" exampleRun exampleEntries).length
        = exampleEntries.countP (fun e => decide (∃ k ∈ exampleKeys, k ∈ e.Tags)) ∧
      List.Forall₂
        (fun (e : Data) (x : FinalData) =>
          ∃ i key, x = { e.ToFinalData "2024-01-01T00:00:00" (exampleRun.now1 i)
            (exampleRun.now2 i) with Tag := key })
        (exampleEntries.filter (fun e => decide (∃ k ∈ exampleKeys, k ∈ e.Tags)))
        (mainFinalData "2024-01-01T00:00:00" exampleRun exampleEntries)) :=
  ⟨exampleRun_order_perm,
    mainFinalData_one_per_matching_entry "2024-01-01T00:00:00" exampleRun exampleKeys
      exampleEntries exampleRun_order_perm⟩

theorem mainFinalData_tag_is_first_match_witness :
    (∀ i, (exampleRun.order i).Perm exampleKeys) ∧
    List.Forall₂
      (fun (p : Nat × Data) (x : FinalData) =>
        x.Tag ∈ exampleKeys ∧ x.Tag ∈ p.2.Tags ∧
          (∃ pre post, exampleRun.order p.1 = pre ++ x.Tag :: post ∧ ∀ k ∈ pre, k ∉ p.2.Tags) ∧
          x = { p.2.ToFinalData "2024-01-01T00:00:00" (exampleRun.now1 p.1)
            (exampleRun.now2 p.1) with Tag := x.Tag })
      (exampleEntries.enum.filter (fun p => decide (∃ k ∈ exampleKeys, k ∈ p.2.Tags)))
      (mainFinalData "2024-01-01T00:00:00" exampleRun exampleEntries) :=
  ⟨exampleRun_order_perm,
    mainFinalData_tag_is_first_match "2024-01-01T00:00:00" exampleRun exampleKeys
      exampleEntries exampleRun_order_perm⟩

/-! ## The rows written by saveToCSV -/

theorem digitVal_ofNat (n : Nat) (h : n < 10) : digitVal (Char.ofNat (48 + n)) = n := by
  interval_cases n <;> rfl

theorem ofNat_ne_minus (n : Nat) (h : n < 10) : Char.ofNat (48 + n) ≠ '-' := by
  interval_cases n <;> decide

theorem readDecimal_append (s : List Char) (c : Char) :
    readDecimal (s ++ [c]) = readDecimal s * 10 + digitVal c := by
  simp [readDecimal, List.foldl_append]

theorem readDecimal_decimalDigits :
    ∀ (fuel n : Nat), n < fuel → readDecimal (decimalDigits fuel n) = n := by
  intro fuel
  induction fuel with
  | zero => intro n h; omega
  | succ fuel ih =>
    intro n h
    by_cases hn : n < 10
    · simp only [decimalDigits, hn, if_true]
      simp [readDecimal, digitVal_ofNat n hn]
    · simp only [decimalDigits, hn, if_false]
      rw [readDecimal_append, ih (n / 10) (by omega),
        digitVal_ofNat (n % 10) (Nat.mod_lt _ (by norm_num))]
      omega

theorem decimalDigits_head_ne_minus :
    ∀ (fuel n : Nat), ∀ c rest, decimalDigits fuel n = c :: rest → c ≠ '-' := by
  intro fuel
  induction fuel with
  | zero => intro n c rest h; simp [decimalDigits] at h
  | succ fuel ih =>
    intro n c rest h
    by_cases hn : n < 10
    · simp only [decimalDigits, hn, if_true] at h
      have hc : Char.ofNat (48 + n) = c := by
        have := List.cons.inj h
        exact this.1
      rw [← hc]
      exact ofNat_ne_minus n hn
    · simp only [decimalDigits, hn, if_false] at h
      cases hd : decimalDigits fuel (n / 10) with
      | nil =>
        rw [hd] at h
        have hc : Char.ofNat (48 + n % 10) = c := (List.cons.inj h).1
        rw [← hc]
        exact ofNat_ne_minus (n % 10) (Nat.mod_lt _ (by norm_num))
      | cons c1 rest1 =>
        rw [hd] at h
        have hc : c1 = c := (List.cons.inj h).1
        rw [← hc]
        exact ih (n / 10) c1 rest1 hd

theorem isPlainDigits_iff (s : List Char) :
    isPlainDigits s = true ↔
      s ≠ [] ∧ (∀ c ∈ s, isDigit c = true) ∧ (s.head? = some '0' → s = ['0']) := by
  cases s with
  | nil => simp [isPlainDigits]
  | cons a rest =>
    simp only [isPlainDigits, List.isEmpty_cons, Bool.not_false, Bool.true_and,
      Bool.and_eq_true, List.all_eq_true, Bool.or_eq_true, bne_iff_ne, ne_eq, beq_iff_eq,
      List.head?_cons, Option.some.injEq, not_false_eq_true, true_and, reduceCtorEq]
    constructor
    · rintro ⟨h1, h2⟩
      refine ⟨h1, ?_⟩
      intro h
      rcases h2 with h2 | h2
      · exact absurd h h2
      · exact h2
    · rintro ⟨h1, h2⟩
      refine ⟨h1, ?_⟩
      by_cases h : a = '0'
      · exact Or.inr (h2 h)
      · exact Or.inl h

theorem isDigit_ofNat (n : Nat) (h : n < 10) : isDigit (Char.ofNat (48 + n)) = true := by
  interval_cases n <;> rfl

theorem ofNat_digitVal (c : Char) (h : isDigit c = true) : Char.ofNat (48 + digitVal c) = c := by
  simp only [isDigit, Bool.and_eq_true, decide_eq_true_eq] at h
  have : 48 + digitVal c = c.toNat := by
    unfold digitVal
    omega
  rw [this, Char.ofNat_toNat]

theorem digitVal_lt (c : Char) (h : isDigit c = true) : digitVal c < 10 := by
  simp only [isDigit, Bool.and_eq_true, decide_eq_true_eq] at h
  unfold digitVal
  omega

theorem decimalDigits_succ (fuel n : Nat) :
    decimalDigits (fuel + 1) n
      = if n < 10 then [Char.ofNat (48 + n)]
        else decimalDigits fuel (n / 10) ++ [Char.ofNat (48 + n % 10)] := rfl

theorem decimalDigits_fuel :
    ∀ (f1 f2 n : Nat), n < f1 → n < f2 → decimalDigits f1 n = decimalDigits f2 n := by
  intro f1
  induction f1 with
  | zero => intro f2 n h; omega
  | succ f1 ih =>
    intro f2 n h1 h2
    cases f2 with
    | zero => omega
    | succ f2 =>
      rw [decimalDigits_succ, decimalDigits_succ]
      by_cases hn : n < 10
      · simp [hn]
      · simp only [hn, if_false]
        rw [ih f2 (n / 10) (by omega) (by omega)]

theorem formatNat_eq (n : Nat) :
    formatNat n = if n < 10 then [Char.ofNat (48 + n)]
      else formatNat (n / 10) ++ [Char.ofNat (48 + n % 10)] := by
  unfold formatNat
  rw [decimalDigits_succ]
  by_cases hn : n < 10
  · simp [hn]
  · simp only [hn, if_false]
    rw [decimalDigits_fuel n (n / 10 + 1) (n / 10) (by omega) (by omega)]

theorem readDecimal_formatNat (n : Nat) : readDecimal (formatNat n) = n :=
  readDecimal_decimalDigits (n + 1) n (Nat.lt_succ_self _)

theorem formatNat_ne_nil (n : Nat) : formatNat n ≠ [] := by
  rw [formatNat_eq]
  split
  · simp
  · simp

theorem formatNat_digits : ∀ (n : Nat), ∀ c ∈ formatNat n, isDigit c = true := by
  intro n
  induction n using Nat.strong_induction_on with
  | _ n ih =>
    intro c hc
    rw [formatNat_eq] at hc
    by_cases hn : n < 10
    · simp only [hn, if_true, List.mem_singleton] at hc
      rw [hc]
      exact isDigit_ofNat n hn
    · simp only [hn, if_false, List.mem_append, List.mem_singleton] at hc
      rcases hc with hc | hc
      · exact ih (n / 10) (by omega) c hc
      · rw [hc]
        exact isDigit_ofNat _ (Nat.mod_lt _ (by norm_num))

theorem head?_append_of_ne_nil {α : Type} (l m : List α) (h : l ≠ []) :
    (l ++ m).head? = l.head? := by
  cases l with
  | nil => exact absurd rfl h
  | cons a rest => rfl

theorem formatNat_head : ∀ (n : Nat), (formatNat n).head? = some '0' → n = 0 := by
  intro n
  induction n using Nat.strong_induction_on with
  | _ n ih =>
    intro h
    rw [formatNat_eq] at h
    by_cases hn : n < 10
    · simp only [hn, if_true, List.head?_cons, Option.some.injEq] at h
      have h2 : digitVal (Char.ofNat (48 + n)) = digitVal '0' := by rw [h]
      rw [digitVal_ofNat n hn] at h2
      exact h2
    · simp only [hn, if_false] at h
      rw [head?_append_of_ne_nil _ _ (formatNat_ne_nil _)] at h
      have := ih (n / 10) (by omega) h
      omega

theorem formatNat_plain (n : Nat) : isPlainDigits (formatNat n) = true := by
  rw [isPlainDigits_iff]
  refine ⟨formatNat_ne_nil n, formatNat_digits n, ?_⟩
  intro h
  have h0 := formatNat_head n h
  rw [h0]
  rfl

theorem formatNat_readDecimal (ds : List Char) (h : isPlainDigits ds = true) :
    formatNat (readDecimal ds) = ds := by
  rw [isPlainDigits_iff] at h
  obtain ⟨hne, hdig, hhead⟩ := h
  induction ds using List.reverseRecOn with
  | nil => exact absurd rfl hne
  | append_singleton init c ih =>
    have hc : isDigit c = true := hdig c (by simp)
    have hv : digitVal c < 10 := digitVal_lt c hc
    rw [readDecimal_append]
    by_cases hinit : init = []
    · subst hinit
      have h0 : readDecimal [] = 0 := rfl
      rw [h0, formatNat_eq]
      simp only [Nat.zero_mul, Nat.zero_add, hv, if_true, List.nil_append]
      rw [ofNat_digitVal c hc]
    · have hinitdig : ∀ x ∈ init, isDigit x = true := fun x hx => hdig x (by simp [hx])
      have hinithead : init.head? = some '0' → init = ['0'] := by
        intro hh
        rw [head?_append_of_ne_nil _ _ hinit] at hhead
        have := hhead hh
        have hlen := congrArg List.length this
        simp at hlen
        exact absurd hlen hinit
      have ihh := ih hinit hinitdig hinithead
      have hpos : 1 ≤ readDecimal init := by
        by_contra hcon
        have hz : readDecimal init = 0 := by omega
        rw [hz] at ihh
        have h1 : init.head? = some '0' := by
          rw [← ihh]
          rfl
        have h2 := hinithead h1
        rw [head?_append_of_ne_nil _ _ hinit] at hhead
        have h3 := hhead h1
        rw [h2] at h3
        simp at h3
      rw [formatNat_eq]
      have hbig : ¬ readDecimal init * 10 + digitVal c < 10 := by omega
      simp only [hbig, if_false]
      have e1 : (readDecimal init * 10 + digitVal c) / 10 = readDecimal init := by omega
      have e2 : (readDecimal init * 10 + digitVal c) % 10 = digitVal c := by omega
      rw [e1, e2, ihh, ofNat_digitVal c hc]

theorem plainDecimal_Itoa (i : Int) : plainDecimal (Itoa i) = some i := by
  have hread : readDecimal (formatNat i.natAbs) = i.natAbs := readDecimal_formatNat _
  have hplain := formatNat_plain i.natAbs
  by_cases hi : i < 0
  · have hne : formatNat i.natAbs ≠ ['0'] := by
      intro h
      rw [h] at hread
      have h0 : readDecimal ['0'] = 0 := rfl
      omega
    simp only [Itoa, hi, if_true, plainDecimal, hplain, hread, Bool.true_and, bne_iff_ne, ne_eq,
      hne, not_false_eq_true]
    simp only [Option.some.injEq]
    omega
  · simp only [Itoa, hi, if_false, plainDecimal]
    cases hd : formatNat i.natAbs with
    | nil => exact absurd hd (formatNat_ne_nil _)
    | cons c rest =>
      have hc : c ≠ '-' := decimalDigits_head_ne_minus (i.natAbs + 1) i.natAbs c rest hd
      rw [hd] at hread hplain
      split
      · rename_i heq
        exact absurd (List.cons.inj heq).1 hc
      · rw [if_pos hplain, hread]
        simp only [Option.some.injEq]
        omega

theorem Itoa_of_plainDecimal (s : String) (i : Int) (h : plainDecimal s = some i) :
    s = Itoa i := by
  unfold plainDecimal at h
  split at h
  · rename_i digits heq
    by_cases hc : (isPlainDigits digits && digits != ['0']) = true
    · rw [if_pos hc] at h
      simp only [Bool.and_eq_true, bne_iff_ne, ne_eq] at hc
      obtain ⟨hp, hne⟩ := hc
      have hfmt := formatNat_readDecimal digits hp
      have hpos : 1 ≤ readDecimal digits := by
        by_contra hcon
        have hz : readDecimal digits = 0 := by omega
        rw [hz] at hfmt
        exact hne hfmt.symm
      have hi : i = -(readDecimal digits : Int) := (Option.some.inj h).symm
      have hneg : i < 0 := by omega
      have habs : i.natAbs = readDecimal digits := by omega
      simp only [Itoa, hneg, if_true, habs, hfmt]
      rw [← heq]
    · rw [if_neg hc] at h
      exact absurd h (by simp)
  · rename_i digits hno
    by_cases hp : isPlainDigits s.data = true
    · rw [if_pos hp] at h
      have hfmt := formatNat_readDecimal s.data hp
      have hi : i = (readDecimal s.data : Int) := (Option.some.inj h).symm
      have hneg : ¬ i < 0 := by omega
      have habs : i.natAbs = readDecimal s.data := by omega
      simp only [Itoa, hneg, if_false, habs, hfmt]
    · rw [if_neg hp] at h
      exact absurd h (by simp)

theorem twoDecimals_neg (w : List Char) (d1 d2 : Char) (hw : isPlainDigits w = true)
    (h1 : isDigit d1 = true) (h2 : isDigit d2 = true) :
    twoDecimals (String.mk ('-' :: (w ++ ['.', d1, d2])))
      = some (-((readDecimal (w ++ [d1, d2]) : ℚ) / 100)) := by
  have hrev : (w ++ ['.', d1, d2]).reverse = d2 :: d1 :: '.' :: w.reverse := by simp
  simp [twoDecimals, hrev, hw, h1, h2]

theorem twoDecimals_nonneg (w : List Char) (d1 d2 : Char) (hw : isPlainDigits w = true)
    (h1 : isDigit d1 = true) (h2 : isDigit d2 = true) (hhead : w.head? ≠ some '-') :
    twoDecimals (String.mk (w ++ ['.', d1, d2]))
      = some ((readDecimal (w ++ [d1, d2]) : ℚ) / 100) := by
  have hrev : (w ++ ['.', d1, d2]).reverse = d2 :: d1 :: '.' :: w.reverse := by simp
  have hne : w ≠ [] := ((isPlainDigits_iff w).mp hw).1
  have hh : (w ++ ['.', d1, d2]).head? = w.head? := head?_append_of_ne_nil _ _ hne
  simp [twoDecimals, hh, hhead, hrev, hw, h1, h2]

theorem formatNat_head_ne_minus (n : Nat) : (formatNat n).head? ≠ some '-' := by
  cases hd : formatNat n with
  | nil => simp
  | cons c rest =>
    have hc : c ≠ '-' := decimalDigits_head_ne_minus (n + 1) n c rest hd
    simpa using hc

theorem readDecimal_three (w : List Char) (d1 d2 : Char) :
    readDecimal (w ++ [d1, d2]) = (readDecimal w * 10 + digitVal d1) * 10 + digitVal d2 := by
  simp [readDecimal, List.foldl_append]

theorem readDecimal_FormatFloat_digits (n : Nat) :
    readDecimal (formatNat (n / 100)
      ++ [Char.ofNat (48 + n / 10 % 10), Char.ofNat (48 + n % 10)]) = n := by
  rw [readDecimal_three, readDecimal_formatNat,
    digitVal_ofNat _ (Nat.mod_lt _ (by norm_num)), digitVal_ofNat _ (Nat.mod_lt _ (by norm_num))]
  omega

theorem roundHalfEven_abs_natAbs (x : ℚ) :
    (((roundHalfEven (|x| * 100)).natAbs : ℕ) : ℚ)
      = if x < 0 then -(roundHalfEven (x * 100) : ℚ) else (roundHalfEven (x * 100) : ℚ) := by
  have h0 : 0 ≤ roundHalfEven (|x| * 100) :=
    roundHalfEven_nonneg _ (mul_nonneg (abs_nonneg x) (by norm_num))
  have hcast : (((roundHalfEven (|x| * 100)).natAbs : ℕ) : ℚ)
      = (roundHalfEven (|x| * 100) : ℚ) := by
    have : (((roundHalfEven (|x| * 100)).natAbs : ℕ) : ℤ) = roundHalfEven (|x| * 100) :=
      Int.natAbs_of_nonneg h0
    rw [← Int.cast_natCast, this]
  rw [hcast]
  by_cases hx : x < 0
  · rw [if_pos hx, abs_of_neg hx]
    have e : -x * 100 = -(x * 100) := by ring
    rw [e, roundHalfEven_neg]
    push_cast
    ring
  · rw [if_neg hx, abs_of_nonneg (not_lt.mp hx)]

/-- The cell `FormatFloat` writes reads back as the price rounded to the nearest
hundredth. -/
theorem twoDecimals_FormatFloat (x : ℚ) :
    twoDecimals (FormatFloat x) = some ((roundHalfEven (x * 100) : ℚ) / 100) := by
  have hw := formatNat_plain ((roundHalfEven (|x| * 100)).natAbs / 100)
  have h1 := isDigit_ofNat ((roundHalfEven (|x| * 100)).natAbs / 10 % 10)
    (Nat.mod_lt _ (by norm_num))
  have h2 := isDigit_ofNat ((roundHalfEven (|x| * 100)).natAbs % 10)
    (Nat.mod_lt _ (by norm_num))
  have hv := readDecimal_FormatFloat_digits (roundHalfEven (|x| * 100)).natAbs
  have hn := roundHalfEven_abs_natAbs x
  by_cases hx : x < 0
  · simp only [FormatFloat, hx, if_true]
    rw [twoDecimals_neg _ _ _ hw h1 h2, hv, hn, if_pos hx]
    congr 1
    ring
  · simp only [FormatFloat, hx, if_false]
    rw [twoDecimals_nonneg _ _ _ hw h1 h2 (formatNat_head_ne_minus _), hv, hn, if_neg hx]

/-- The price rounded to the nearest hundredth is within half a hundredth of the
price. -/
theorem roundHalfEven_hundredths (x : ℚ) :
    |(roundHalfEven (x * 100) : ℚ) / 100 - x| ≤ 1 / 200 := by
  have h := roundHalfEven_abs_sub_le (x * 100)
  have e : (roundHalfEven (x * 100) : ℚ) / 100 - x
      = ((roundHalfEven (x * 100) : ℚ) - x * 100) / 100 := by ring
  rw [e, abs_div, abs_of_pos (by norm_num : (0 : ℚ) < 100)]
  rw [div_le_iff₀ (by norm_num)]
  linarith

/-- The cell starts with `-` exactly for a negative price. -/
theorem FormatFloat_head (x : ℚ) : (FormatFloat x).data.head? = some '-' ↔ x < 0 := by
  by_cases hx : x < 0
  · simp [FormatFloat, hx]
  · simp only [FormatFloat, hx, if_false, iff_false]
    rw [head?_append_of_ne_nil _ _ (formatNat_ne_nil _)]
    exact formatNat_head_ne_minus _

theorem foldl_append_singleton {α β : Type} (f : α → β) (l : List α) (acc : List β) :
    l.foldl (fun w d => w ++ [f d]) acc = acc ++ l.map f := by
  induction l generalizing acc with
  | nil => simp
  | cons a rest ih => simp [ih]

/-- C10: when the output file can be created, the rows `saveToCSV` passes to the
CSV writer are the 14-column header followed by one 14-field row per record, in
input order; the row of a record holds, under each header column, the field of
that name.  The two price cells read back, as numerals with exactly two
decimals, as the record's prices rounded to the nearest hundredth (within
`0.005` of the price, with a leading `-` exactly for a negative price; the
sentinel is written `-1.00` and the float64 nearest to `0.36` is written
`0.36`); the IPv4 cell is the list joined with `,`, empty for an empty list;
the five integer cells are the plain decimal numerals of the record's integers:
`Itoa i` is the one string that is an optional `-` followed by decimal digits
without leading zeros and denotes `i`. -/
theorem saveToCSV_rows (data : List FinalData) :
    saveToCSV none data = (csvHeader :: data.map csvLine, none) ∧
      (∀ i : Fin data.length,
        (saveToCSV none data).1[i.val + 1]? = some (csvLine (data.get i))) ∧
      csvHeader.length = 14 ∧
      (∀ d : FinalData, (csvLine d).length = 14) ∧
      (∀ d : FinalData, List.zip csvHeader (csvLine d) =
        [("Label", d.Label), ("Tag", d.Tag), ("FullTags", d.FullTags),
         ("PriceSinceCreation(hours)", FormatFloat d.PriceSinceCreation),
         ("PriceThisMonth", FormatFloat d.PriceThisMonth),
         ("Created", d.Created), ("Type", d.Type_), ("IPv4", Join d.IPv4 ","),
         ("Region", d.Region), ("Disk", Itoa d.Disk), ("Memory", Itoa d.Memory),
         ("Vcpus", Itoa d.Vcpus), ("Gpus", Itoa d.Gpus), ("Transfer", Itoa d.Transfer)]) ∧
      (∀ d : FinalData, (csvLine { d with IPv4 := [] })[7]? = some "") ∧
      (∀ d : FinalData,
        ((csvLine d)[3]?).bind twoDecimals
            = some ((roundHalfEven (d.PriceSinceCreation * 100) : ℚ) / 100) ∧
          ((csvLine d)[4]?).bind twoDecimals
            = some ((roundHalfEven (d.PriceThisMonth * 100) : ℚ) / 100) ∧
          ((csvLine d).drop 9).map plainDecimal
            = [some d.Disk, some d.Memory, some d.Vcpus, some d.Gpus, some d.Transfer]) ∧
      (∀ x : ℚ, twoDecimals (FormatFloat x) = some ((roundHalfEven (x * 100) : ℚ) / 100)) ∧
      (∀ x : ℚ, |(roundHalfEven (x * 100) : ℚ) / 100 - x| ≤ 1 / 200) ∧
      (∀ x : ℚ, (FormatFloat x).data.head? = some '-' ↔ x < 0) ∧
      (∀ (i : Int) (s : String), plainDecimal s = some i ↔ s = Itoa i) ∧
      FormatFloat (-1) = "-1.00" ∧
      FormatFloat (float64 0.36) = "0.36" ∧
      Itoa 81920 = "81920" ∧ Itoa 0 = "0" ∧ Itoa (-7) = "-7" := by
  have hrows : saveToCSV none data = (csvHeader :: data.map csvLine, none) := by
    simp [saveToCSV, foldl_append_singleton]
  have hiff : ∀ (i : Int) (s : String), plainDecimal s = some i ↔ s = Itoa i := by
    intro i s
    constructor
    · exact Itoa_of_plainDecimal s i
    · intro h
      rw [h]
      exact plainDecimal_Itoa i
  have hscenario : FormatFloat (float64 0.36) = "0.36" := by
    rw [float64_036]
    exact FormatFloat_scenario
  refine ⟨hrows, ?_, rfl, fun d => rfl, ?_, ?_, ?_, twoDecimals_FormatFloat,
    roundHalfEven_hundredths, FormatFloat_head, hiff, FormatFloat_sentinel, hscenario,
    by decide, by decide, by decide⟩
  · intro i
    rw [hrows]
    simp
  · intro d
    cases hip : d.IPv4 with
    | nil => simp [csvLine, csvHeader, hip, Join]
    | cons a rest => simp [csvLine, csvHeader, hip]
  · intro d
    simp [csvLine]
  · intro d
    refine ⟨?_, ?_, ?_⟩
    · simp [csvLine, twoDecimals_FormatFloat]
    · simp [csvLine, twoDecimals_FormatFloat]
    · simp [csvLine, plainDecimal_Itoa]

/-! ## FullTags -/

theorem splitChars_of_not_mem (sep : Char) :
    ∀ field : List Char, sep ∉ field → splitChars sep field = [field] := by
  intro field
  induction field with
  | nil => intro _; rfl
  | cons c cs ih =>
    intro h
    have hc : ¬ c = sep := fun e => h (by simp [e])
    have hcs : sep ∉ cs := fun hm => h (List.mem_cons_of_mem _ hm)
    simp [splitChars, hc, ih hcs]

theorem splitChars_append_sep (sep : Char) (rest : List Char) :
    ∀ field : List Char, sep ∉ field →
      splitChars sep (field ++ sep :: rest) = field :: splitChars sep rest := by
  intro field
  induction field with
  | nil => intro _; simp [splitChars]
  | cons c cs ih =>
    intro h
    have hc : ¬ c = sep := fun e => h (by simp [e])
    have hcs : sep ∉ cs := fun hm => h (List.mem_cons_of_mem _ hm)
    simp [splitChars, hc, ih hcs]

theorem foldl_join_data (sep : String) :
    ∀ (rest : List String) (acc : String),
      (rest.foldl (fun b s => b ++ sep ++ s) acc).data
        = acc.data ++ (rest.map (fun s => sep.data ++ s.data)).flatten := by
  intro rest
  induction rest with
  | nil => intro acc; simp
  | cons s rest ih =>
    intro acc
    simp [ih, String.data_append]

theorem Join_cons_data (t : String) (rest : List String) (sep : String) :
    (Join (t :: rest) sep).data
      = t.data ++ (rest.map (fun s => sep.data ++ s.data)).flatten := by
  cases rest with
  | nil => simp [Join]
  | cons s rest => simp only [Join]; exact foldl_join_data sep (s :: rest) t

theorem splitChars_joined (sep : Char) :
    ∀ (rest : List String) (t : String), sep ∉ t.data → (∀ s ∈ rest, sep ∉ s.data) →
      splitChars sep (t.data ++ (rest.map (fun s => [sep] ++ s.data)).flatten)
        = t.data :: rest.map String.data := by
  intro rest
  induction rest with
  | nil =>
    intro t ht _
    simpa using splitChars_of_not_mem sep t.data ht
  | cons s rest ih =>
    intro t ht hrest
    have hs : sep ∉ s.data := hrest s (List.mem_cons_self _ _)
    have hr : ∀ x ∈ rest, sep ∉ x.data := fun x hx => hrest x (List.mem_cons_of_mem _ hx)
    show splitChars sep
        (t.data ++ sep :: (s.data ++ (rest.map (fun s => [sep] ++ s.data)).flatten))
      = t.data :: s.data :: rest.map String.data
    rw [splitChars_append_sep sep _ t.data ht, ih s hs hr]

theorem map_mk_data (l : List String) : (l.map String.data).map String.mk = l := by
  induction l with
  | nil => rfl
  | cons s rest ih => simp [ih]

/-- C9 (amended): for every record whose `Tags` list is not empty and whose tags
contain no comma, splitting the `FullTags` field of the record returned by
`ToFinalData` on `,` gives back the `Tags` list. -/
theorem split_FullTags (d : Data) (bom : String) (now1 now2 : Time)
    (hne : d.Tags ≠ []) (hcomma : ∀ t ∈ d.Tags, ',' ∉ t.data) :
    Split (d.ToFinalData bom now1 now2).FullTags ',' = d.Tags := by
  have hfull : (d.ToFinalData bom now1 now2).FullTags = Join d.Tags "," := rfl
  rw [hfull]
  cases htags : d.Tags with
  | nil => exact absurd htags hne
  | cons t rest =>
    rw [htags] at hcomma
    have ht : ',' ∉ t.data := hcomma t (List.mem_cons_self _ _)
    have hr : ∀ s ∈ rest, ',' ∉ s.data := fun s hs => hcomma s (List.mem_cons_of_mem _ hs)
    have hdata : (",":String).data = [','] := rfl
    have hsplit := splitChars_joined ',' rest t ht hr
    have hmap := map_mk_data (t :: rest)
    simp only [Split, Join_cons_data, hdata]
    rw [hsplit]
    exact hmap

theorem split_FullTags_witness :
    ({ exampleData with Tags := ["core", "gnosis"] } : Data).Tags ≠ [] ∧
      (∀ t ∈ ({ exampleData with Tags := ["core", "gnosis"] } : Data).Tags, ',' ∉ t.data) ∧
      Split (({ exampleData with Tags := ["core", "gnosis"] } : Data).ToFinalData
        "2024-01-01T00:00:00" 63839750400000000000 63839750400000000000).FullTags ','
        = ({ exampleData with Tags := ["core", "gnosis"] } : Data).Tags :=
  ⟨by decide, by decide, split_FullTags _ _ _ _ (by decide) (by decide)⟩

/-- C9 as stated fails for a record without tags: no tag contains a comma, the
joined `FullTags` is the empty string, and splitting it gives one empty field,
not the empty list. -/
theorem split_FullTags_empty_tags :
    (∀ t ∈ ({ exampleData with Tags := [] } : Data).Tags, ',' ∉ t.data) ∧
      Split (({ exampleData with Tags := [] } : Data).ToFinalData
        "2024-01-01T00:00:00" 63839750400000000000 63839750400000000000).FullTags ',' = [""] ∧
      Split (({ exampleData with Tags := [] } : Data).ToFinalData
        "2024-01-01T00:00:00" 63839750400000000000 63839750400000000000).FullTags ','
        ≠ ({ exampleData with Tags := [] } : Data).Tags := by
  refine ⟨by decide, by decide, by decide⟩

end Converter
